import Mathlib

/-!
# fb_st7565: frame transcoder and protocol sequencer of the ST7565 LCD driver

A shallow embedding of `src/fb_st7565.c` (`write_data_command`, `init_display`,
`write_vmem`, `set_gamma`) and theorems about it.

Conventions of the embedding

* C `int`, `u32`, `u8` values are `Int`/`Nat`; a conversion to a narrower or unsigned
  type is an explicit `%` (see `toU32`, `toU8`, `toChar`).
* Plain `char` is 8 bits wide and its signedness is implementation-defined; every
  function that declares a `char` variable takes the signedness as its first
  argument (`true` = signed).
* A loop whose counter is a `char` is run by `charLoop` with fuel, as the counter
  can wrap; a loop whose counter is an `int` below `2^31` is run by `forLoop`.
* Memory reached through a pointer is a function from offsets to values; the
  transmit buffer `par->txbuf.buf` is indexed by `Int`, because the pointer walking
  it is decremented past its first byte in the `rotate = 180` case.
* The bus is a recorder: every call of `gpio_set_value`, `mdelay`,
  `par->fbtftops.reset` and `par->fbtftops.write` appends one event.
* `write_vmem_pack_log` is the packing with its memory accesses recorded (pixel
  indices read, transmit-buffer offsets stored to); its result is that of
  `write_vmem_pack`.
-/

namespace FbSt7565

/-! ## Constants (`#define`s of the source) -/

def WIDTH : Nat := 128
def HEIGHT : Nat := 64
def MAX_WIDTH : Nat := 132
def CMD_DISPLAY_ON : Nat := 0xAF
def CMD_SET_DISP_START_LINE : Nat := 0x40
def CMD_SET_PAGE : Nat := 0xB0
def CMD_SET_COLUMN_UPPER : Nat := 0x10
def CMD_SET_COLUMN_LOWER : Nat := 0x00
def CMD_SET_ADC_REVERSE : Nat := 0xA1
def CMD_SET_ALLPTS_NORMAL : Nat := 0xA4
def CMD_SET_BIAS_7 : Nat := 0xA3
def CMD_RMW : Nat := 0xE0
def CMD_SET_COM_NORMAL : Nat := 0xC0
def CMD_SET_POWER_CONTROL : Nat := 0x28
def CMD_SET_RESISTOR_RATIO : Nat := 0x20
def CMD_SET_VOLUME : Nat := 0x81
def CMD_SET_VOLUME_LEVEL : Nat := 0x00
def LINES_PER_PAGE : Nat := 8

/-! ## Machine integers -/

/-- Conversion of a C `int` to `u32` (value modulo `2^32`). -/
def toU32 (v : Int) : Nat := (v % 2 ^ 32).toNat

/-- Conversion to `u8`, the cast `(u8)val`. -/
def toU8 (v : Nat) : Nat := v % 256

/-- Conversion of a C `int` to plain `char`: modulo `2^8`, into `-128..127` when
`char` is signed and into `0..255` when it is unsigned. -/
def toChar (isSigned : Bool) (v : Int) : Int :=
  if isSigned then (v + 128) % 256 - 128 else v % 256

/-! ## Bus events and driver state -/

/-- One observable action on the display's control lines and transport. -/
inductive Event where
  /-- Call of `par->fbtftops.reset(par)`. -/
  | reset : Event
  /-- Call of `mdelay(ms)`. -/
  | mdelay (ms : Nat) : Event
  /-- Call of `gpio_set_value(gpio, value)`. -/
  | gpio_set_value (gpio : Int) (value : Nat) : Event
  /-- Call of `par->fbtftops.write(par, par->buf, len)` with the `len` bytes sent. -/
  | write (bytes : List Nat) : Event
  deriving DecidableEq, Repr

/-- The recorder standing for the bus: the events issued so far. -/
structure Bus where
  trace : List Event
  deriving DecidableEq, Repr

/-- The transport behind `par->fbtftops.write`: given the events issued so far it
tells the return code of the next write (`0` success, negative errno failure). -/
abbrev Transport := List Event → Int

/-- The fields of `struct fbtft_par` the driver uses. -/
structure Par where
  /-- Field `par->gpio.dc`, `-1` when the line is absent. -/
  gpio_dc : Int
  /-- Field `par->info->var.xres` (`__u32`). -/
  xres : Nat
  /-- Field `par->info->var.yres` (`__u32`). -/
  yres : Nat
  /-- Field `par->info->var.rotate` (`__u32`). -/
  rotate : Nat
  /-- Pixel memory `(u16 *)par->info->screen_base`, by pixel index. -/
  vmem16 : Nat → Nat
  /-- Transmit buffer `par->txbuf.buf`, by byte offset. -/
  txbuf : Int → Nat

/-- Store of one byte: `buf[p] = v`. -/
def store (mem : Int → Nat) (p : Int) (v : Nat) : Int → Nat :=
  fun a => if a = p then v else mem a

/-- Append one event to the recorder. -/
def Bus.emit (bus : Bus) (e : Event) : Bus := { trace := bus.trace ++ [e] }

/-- Call of `par->fbtftops.write(par, buf, len)`: the bytes go out, the return
code is what the transport reports. -/
def fbtftops_write (tr : Transport) (bus : Bus) (bytes : List Nat) : Int × Bus :=
  (tr bus.trace, bus.emit (Event.write bytes))

/-! ## Loops -/

/-- Loop `for (k = 0; k < n; k++) body` with a counter that does not wrap. -/
def forLoop {σ : Type} (n : Nat) (body : Nat → σ → σ) (s : σ) : σ :=
  (List.range n).foldl (fun s k => body k s) s

/-- Loop `for (c = c0; cond(c); c++) body` whose counter `c` is a plain `char`:
`c++` stores `c + 1` converted back to `char`. `none` when the fuel runs out. -/
def charLoop {σ : Type} (isSigned : Bool) (cond : Int → Bool) (body : Int → σ → Option σ) :
    Nat → Int → σ → Option σ
  | 0, _, _ => none
  | fuel + 1, c, s =>
    if cond c then
      match body c s with
      | none => none
      | some s1 => charLoop isSigned cond body fuel (toChar isSigned (c + 1)) s1
    else some s

/-! ## `write_data_command` (lines 84-94) -/

/-- Function `write_data_command(par, dc, val)`. The return code of the transport
write is stored in the local `ret` and dropped; the function is `void`. -/
def write_data_command (tr : Transport) (par : Par) (dc : Nat) (val : Nat) (bus : Bus) : Bus :=
  let bus1 := if par.gpio_dc ≠ -1 then bus.emit (Event.gpio_set_value par.gpio_dc dc) else bus
  let buf0 := toU8 val
  let (_ret, bus2) := fbtftops_write tr bus1 [buf0]
  bus2

/-- Modelled from the spec: the macro `write_reg` of `fbtft.h`, which is not among
the sources. Section 4.1 gives `write_command(byte)`: select the command channel,
then exactly one byte write; that is `write_data_command` with `dc = 0`. The
driver calls it as a statement, so nothing it could return reaches the caller. -/
def write_reg (tr : Transport) (par : Par) (val : Nat) (bus : Bus) : Bus :=
  write_data_command tr par 0 val bus

/-! ## `init_display` (lines 97-156) -/

/-- Register phase of `init_display`, lines 104-142: reset, settle, select the
command channel, then the fixed register writes and delays. -/
def init_display_regs (tr : Transport) (par : Par) (bus : Bus) : Bus :=
  let bus := bus.emit Event.reset
  let bus := bus.emit (Event.mdelay 550)
  let bus := bus.emit (Event.gpio_set_value par.gpio_dc 0)
  let bus := write_reg tr par CMD_SET_BIAS_7 bus
  let bus := write_reg tr par CMD_SET_ADC_REVERSE bus
  let bus := write_reg tr par CMD_SET_COM_NORMAL bus
  let bus := write_reg tr par CMD_SET_DISP_START_LINE bus
  let bus := write_reg tr par (CMD_SET_POWER_CONTROL ||| 0x4) bus
  let bus := bus.emit (Event.mdelay 5)
  let bus := write_reg tr par (CMD_SET_POWER_CONTROL ||| 0x6) bus
  let bus := bus.emit (Event.mdelay 5)
  let bus := write_reg tr par (CMD_SET_POWER_CONTROL ||| 0x7) bus
  let bus := bus.emit (Event.mdelay 10)
  let bus := write_reg tr par ( CMD_SET_RESISTOR_RATIO ||| 0x6) bus
  let bus := write_reg tr par CMD_DISPLAY_ON bus
  let bus := write_reg tr par CMD_SET_ALLPTS_NORMAL bus
  let bus := bus.emit (Event.mdelay 30)
  let bus := write_reg tr par CMD_SET_VOLUME bus
  let bus := write_reg tr par (CMD_SET_VOLUME_LEVEL &&& 0x3f) bus
  bus

/-- Body of the column loop of the clear phase, lines 149-151, for the `char`
value `column` promoted to `int`. -/
def init_display_clear_column (tr : Transport) (par : Par) (column : Int) (bus : Bus) : Bus :=
  let bus := write_data_command tr par 0
    (toU32 (Int.lor CMD_SET_COLUMN_LOWER (Int.land column 0xf))) bus
  let bus := write_data_command tr par 0
    (toU32 (Int.lor CMD_SET_COLUMN_UPPER (Int.land (Int.shiftRight column 4) 0xf))) bus
  write_data_command tr par 1 0x00 bus

/-- Body of the page loop of the clear phase, lines 146-152. -/
def init_display_clear_page (isSigned : Bool) (tr : Transport) (par : Par) (fuel : Nat)
    (page : Int) (bus : Bus) : Option Bus :=
  let bus := write_data_command tr par 0 (toU32 (Int.lor CMD_SET_PAGE page)) bus
  charLoop isSigned (fun column => decide (column < (MAX_WIDTH : Int)))
    (fun column b => some (init_display_clear_column tr par column b)) fuel 0 bus

/-- Clear phase of `init_display`, lines 145-153; `page` and `column` are `char`. -/
def init_display_clear (isSigned : Bool) (tr : Transport) (par : Par) (fuel : Nat)
    (bus : Bus) : Option Bus :=
  charLoop isSigned (fun page => decide (page < 8))
    (fun page b => init_display_clear_page isSigned tr par fuel page b) fuel 0 bus

/-- Function `init_display(par)`: the return value and the bus afterwards, `none`
when a loop is still running after `fuel` iterations. -/
def init_display (isSigned : Bool) (tr : Transport) (par : Par) (fuel : Nat) (bus : Bus) :
    Option (Int × Bus) :=
  match init_display_clear isSigned tr par fuel (init_display_regs tr par bus) with
  | none => none
  | some bus1 => some (0, bus1)

/-! ## `write_vmem` (lines 176-235) -/

/-- State of the packing loops: the transmit buffer and the offset of the walking
pointer `buf` from `par->txbuf.buf`. -/
structure Pack where
  mem : Int → Nat
  buf : Int

/-- The operand `vmem16[(y*8+i) * xres + x] ? 1 : 0`; the index is computed in `u32`. -/
def pixel_bit (par : Par) (y x i : Nat) : Nat :=
  if par.vmem16 (((y * 8 + i) * par.xres + x) % 2 ^ 32) ≠ 0 then 1 else 0

/-- Body of the `x` loop for `rotate = 0`, lines 192-197. -/
def write_vmem_cell_0 (par : Par) (y x : Nat) (s : Pack) : Pack :=
  let m0 := store s.mem s.buf 0x00
  let m1 := forLoop 8
    (fun i m => store m s.buf (toU8 (m s.buf ||| (pixel_bit par y x i <<< i)))) m0
  { mem := m1, buf := s.buf + 1 }

/-- Body of the `x` loop for `rotate = 180`, lines 209-216; the inner loop carries
the buffer and the bit position `j`. -/
def write_vmem_cell_180 (par : Par) (y x : Nat) (s : Pack) : Pack :=
  let m0 := store s.mem s.buf 0x00
  let r := forLoop 8
    (fun i (mj : (Int → Nat) × Nat) =>
      let j := mj.2 - 1
      (store mj.1 s.buf (toU8 (mj.1 s.buf ||| (pixel_bit par y x i <<< j))), j))
    (m0, 8)
  { mem := r.1, buf := s.buf - 1 }

/-- The `switch (par->info->var.rotate)` of `write_vmem`, lines 187-220: packs the
pixels into the transmit buffer. Any other `rotate` value matches no case. -/
def write_vmem_pack (par : Par) : Pack :=
  let s0 : Pack := { mem := par.txbuf, buf := 0 }
  if par.rotate = 0 then
    forLoop (par.yres / LINES_PER_PAGE)
      (fun y s => forLoop par.xres (fun x s1 => write_vmem_cell_0 par y x s1) s) s0
  else if par.rotate = 180 then
    let s1 : Pack :=
      { s0 with buf := s0.buf +
          (((par.xres * par.yres % 2 ^ 32 / LINES_PER_PAGE + 2 ^ 32 - 1) % 2 ^ 32 : Nat) : Int) }
    forLoop (par.yres / LINES_PER_PAGE)
      (fun y s => forLoop par.xres (fun x s2 => write_vmem_cell_180 par y x s2) s) s1
  else s0

/-- Body of the page loop of the transmission, lines 224-231; the state is the bus
and the offset of `p_buf`. The test `column < xres` compares in `u32`. -/
def write_vmem_send_page (isSigned : Bool) (tr : Transport) (par : Par) (mem : Int → Nat)
    (fuel : Nat) (page : Int) (s : Bus × Nat) : Option (Bus × Nat) :=
  let bus := write_data_command tr par 0 (toU32 (Int.lor CMD_SET_PAGE page)) s.1
  let bus := write_data_command tr par 0
    (CMD_SET_COLUMN_LOWER ||| (toU32 ((MAX_WIDTH : Int) - (par.xres : Int)) &&& 0xf)) bus
  let bus := write_data_command tr par 0
    (CMD_SET_COLUMN_UPPER ||| ((toU32 ((MAX_WIDTH : Int) - (par.xres : Int)) >>> 4) &&& 0x0F)) bus
  let bus := write_data_command tr par 0 CMD_RMW bus
  charLoop isSigned (fun column => decide (toU32 column < par.xres))
    (fun _ (t : Bus × Nat) => some (write_data_command tr par 1 (mem (t.2 : Int)) t.1, t.2 + 1))
    fuel 0 (bus, s.2)

/-- Transmission loop of `write_vmem`, lines 223-232. -/
def write_vmem_send (isSigned : Bool) (tr : Transport) (par : Par) (mem : Int → Nat)
    (fuel : Nat) (bus : Bus) : Option (Bus × Nat) :=
  charLoop isSigned (fun page => decide (page < 8))
    (fun page s => write_vmem_send_page isSigned tr par mem fuel page s) fuel 0 (bus, 0)

/-- Function `write_vmem(par, offset, len)`: return value, transmit buffer and bus
afterwards; `none` when a loop is still running after `fuel` iterations. -/
def write_vmem (isSigned : Bool) (tr : Transport) (par : Par) (fuel : Nat) (bus : Bus) :
    Option (Int × (Int → Nat) × Bus) :=
  let ret : Int := 0
  let pk := write_vmem_pack par
  match write_vmem_send isSigned tr par pk.mem fuel bus with
  | none => none
  | some s => some (ret, pk.mem, s.1)

/-! ## `set_gamma` (lines 237-248) -/

/-- Function `set_gamma(par, curves)`: return value, the `curves` array and the bus
afterwards. -/
def set_gamma (tr : Transport) (par : Par) (curves : Nat → Nat) (bus : Bus) :
    Int × (Nat → Nat) × Bus :=
  let curves1 : Nat → Nat := fun k => if k = 0 then curves 0 &&& 0x3f else curves k
  let bus := write_reg tr par CMD_SET_VOLUME bus
  let bus := write_reg tr par (curves1 0) bus
  (0, curves1, bus)

/-! ## Vocabulary of the statements -/

/-- Events of one byte sent on channel `dc` (0 = command, 1 = data): the channel
select when the line exists, then one single-byte transport write. -/
def byte_events (par : Par) (dc : Nat) (b : Nat) : List Event :=
  (if par.gpio_dc = -1 then [] else [Event.gpio_set_value par.gpio_dc dc]) ++ [Event.write [b]]

/-- Events of one command byte. -/
def command (par : Par) (b : Nat) : List Event := byte_events par 0 b

/-- Events of one data byte. -/
def data (par : Par) (b : Nat) : List Event := byte_events par 1 b

/-- The byte built by eight steps `acc |= bit i << pos i` from `0x00`, stored as `u8`. -/
def packed_byte (bit : Nat → Nat) (pos : Nat → Nat) : Nat :=
  forLoop 8 (fun i acc => toU8 (acc ||| (bit i <<< pos i))) 0

/-- The eight steps written out, for bits given as booleans. -/
def byte_of_bools (b0 b1 b2 b3 b4 b5 b6 b7 : Bool) (pos : Nat → Nat) : Nat :=
  packed_byte (fun i => ([b0, b1, b2, b3, b4, b5, b6, b7].getD i false).toNat) pos

/-- The same frame and buffers under orientation `r`: only `par->info->var.rotate`
differs. -/
def with_rotate (par : Par) (r : Nat) : Par := { par with rotate := r }

/-- The packed frame as a byte sequence: the first `n` bytes of the transmit buffer. -/
def packed_frame (mem : Int → Nat) (n : Nat) : List Nat :=
  (List.range n).map (fun (k : Nat) => mem (k : Int))

/-- The byte with the eight bits of `b` in reverse order. -/
def bitrev8 (b : Nat) : Nat :=
  (List.range 8).foldl (fun acc i => acc + (b / 2 ^ i % 2) * 2 ^ (7 - i)) 0

/-- Mirror of a packed frame: the bytes reversed end-to-end, each byte bit-reversed. -/
def mirror (l : List Nat) : List Nat := l.reverse.map bitrev8

/-- A 2 x 16 frame with pixels (0,0), (1,1), (9,0) and (15,1) lit, over a dirty
transmit buffer. -/
def demo_par : Par :=
  { gpio_dc := 24, xres := 2, yres := 16, rotate := 0,
    vmem16 := fun k => if k = 0 ∨ k = 3 ∨ k = 18 ∨ k = 31 then 0xFFFF else 0,
    txbuf := fun _ => 0xA5 }

/-- A 1 x 16 frame whose only lit pixel is (0,0). -/
def tall_par : Par :=
  { gpio_dc := 24, xres := 1, yres := 16, rotate := 0,
    vmem16 := fun k => if k = 0 then 1 else 0,
    txbuf := fun _ => 0 }

/-- The 128 x 64 frame whose only lit pixel is (0,0). -/
def corner_par : Par :=
  { gpio_dc := 24, xres := WIDTH, yres := HEIGHT, rotate := 0,
    vmem16 := fun k => if k = 0 then 0xFFFF else 0,
    txbuf := fun _ => 0 }

/-- Events of a sequence of single-byte sends, each given as (channel, byte). -/
def sent_events (par : Par) (l : List (Nat × Nat)) : List Event :=
  l.flatMap (fun s => byte_events par s.1 s.2)

/-- The sends of one page of a repaint: page address, column address low and high
nibble, read-modify-write, then the `xres` bytes of that page on the data channel. -/
def repaint_page (par : Par) (mem : Int → Nat) (page : Nat) : List (Nat × Nat) :=
  [(0, 0xB0 ||| page), (0, 0x00 ||| ((132 - par.xres) &&& 0xF)),
    (0, 0x10 ||| (((132 - par.xres) >>> 4) &&& 0xF)), (0, 0xE0)]
  ++ (List.range par.xres).map (fun k => (1, mem ((page * par.xres + k : Nat) : Int)))

/-- The sends of a whole repaint: pages 0 to 7 in order. -/
def repaint (par : Par) (mem : Int → Nat) : List (Nat × Nat) :=
  (List.range 8).flatMap (repaint_page par mem)

/-- The bytes sent on the data channel, in order. -/
def data_bytes (l : List (Nat × Nat)) : List Nat :=
  (l.filter (fun s => s.1 = 1)).map (fun s => s.2)

/-- The length of every transport write of a trace, in order. -/
def write_sizes : List Event → List Nat
  | [] => []
  | Event.write bytes :: t => bytes.length :: write_sizes t
  | _ :: t => write_sizes t

/-- A 2 x 64 frame with a diagonal of lit pixels, over a zeroed transmit buffer. -/
def strip_par : Par :=
  { gpio_dc := 24, xres := 2, yres := 64, rotate := 0,
    vmem16 := fun k => if k % 3 = 0 then 0x1F else 0,
    txbuf := fun _ => 0 }

/-- A transport on which every write succeeds. -/
def good_transport : Transport := fun _ => 0

/-- A transport on which every write fails with `-EIO`. -/
def dead_transport : Transport := fun _ => -5

/-- The events of the register phase of `init_display`, in order. -/
def init_regs_events (par : Par) : List Event :=
  [Event.reset, Event.mdelay 550, Event.gpio_set_value par.gpio_dc 0]
  ++ command par 0xA3 ++ command par 0xA1 ++ command par 0xC0 ++ command par 0x40
  ++ command par 0x2C ++ [Event.mdelay 5]
  ++ command par 0x2E ++ [Event.mdelay 5]
  ++ command par 0x2F ++ [Event.mdelay 10]
  ++ command par 0x26 ++ command par 0xAF ++ command par 0xA4 ++ [Event.mdelay 30]
  ++ command par 0x81 ++ command par 0x00

/-- The sends clearing one column: column address low and high nibble, a zero byte. -/
def clear_column_sends (column : Nat) : List (Nat × Nat) :=
  [(0, 0x00 ||| (column &&& 0xF)), (0, 0x10 ||| ((column >>> 4) &&& 0xF)), (1, 0x00)]

/-- The sends clearing one page: page address, then columns 0 to 131 in order. -/
def clear_page_sends (page : Nat) : List (Nat × Nat) :=
  (0, 0xB0 ||| page) :: (List.range 132).flatMap clear_column_sends

/-- The sends of the whole clear phase: pages 0 to 7 in order. -/
def clear_sends : List (Nat × Nat) := (List.range 8).flatMap clear_page_sends

/-- A power-control command byte: `0x28 | s` with `s` in `0..7`. -/
def is_power_control (b : Nat) : Bool := b &&& 0xF8 == 0x28

/-- The power-control writes of a trace, in order, each with the event that
follows it immediately. -/
def power_steps : List Event → List (Nat × Option Event)
  | [] => []
  | Event.write bytes :: t =>
    match bytes with
    | [b] => if is_power_control b then (b, t.head?) :: power_steps t else power_steps t
    | _ => power_steps t
  | _ :: t => power_steps t

/-- Stage set `a` is a strict subset of stage set `b` (as bit masks). -/
abbrev stage_lt (a b : Nat) : Prop := a &&& b = a ∧ a ≠ b

/-! ## Recorded memory accesses of the packing loops -/

/-- The index of the pixel read at step `i` of page `y`, column `x`: the expression
`(y*8+i) * xres + x` of the source, computed in `u32`. -/
def pixel_index (par : Par) (y x i : Nat) : Nat := ((y * 8 + i) * par.xres + x) % 2 ^ 32

/-- Memory accesses of the packing loops in program order: the indices read from
`vmem16` and the offsets of `par->txbuf.buf` stored to. -/
structure PackLog where
  reads : List Nat
  writes : List Int

/-- Body of the `x` loop for `rotate = 0` with every access recorded: the store
`*buf = 0x00`, then at each step the read of `vmem16[..]` and the store `*buf |= ..`. -/
def write_vmem_cell_0_log (par : Par) (y x : Nat) (t : Pack × PackLog) : Pack × PackLog :=
  let m0 := store t.1.mem t.1.buf 0x00
  let l0 : PackLog := { reads := t.2.reads, writes := t.2.writes ++ [t.1.buf] }
  let r := forLoop 8
    (fun i (ml : (Int → Nat) × PackLog) =>
      (store ml.1 t.1.buf (toU8 (ml.1 t.1.buf ||| (pixel_bit par y x i <<< i))),
        ({ reads := ml.2.reads ++ [pixel_index par y x i],
           writes := ml.2.writes ++ [t.1.buf] } : PackLog)))
    (m0, l0)
  ({ mem := r.1, buf := t.1.buf + 1 }, r.2)

/-- Body of the `x` loop for `rotate = 180` with every access recorded. -/
def write_vmem_cell_180_log (par : Par) (y x : Nat) (t : Pack × PackLog) : Pack × PackLog :=
  let m0 := store t.1.mem t.1.buf 0x00
  let l0 : PackLog := { reads := t.2.reads, writes := t.2.writes ++ [t.1.buf] }
  let r := forLoop 8
    (fun i (mjl : ((Int → Nat) × Nat) × PackLog) =>
      let j := mjl.1.2 - 1
      ((store mjl.1.1 t.1.buf (toU8 (mjl.1.1 t.1.buf ||| (pixel_bit par y x i <<< j))), j),
        ({ reads := mjl.2.reads ++ [pixel_index par y x i],
           writes := mjl.2.writes ++ [t.1.buf] } : PackLog)))
    ((m0, 8), l0)
  ({ mem := r.1.1, buf := t.1.buf - 1 }, r.2)

/-- The `switch` of `write_vmem` with every access recorded, from an empty record. -/
def write_vmem_pack_log (par : Par) : Pack × PackLog :=
  let s0 : Pack := { mem := par.txbuf, buf := 0 }
  let l0 : PackLog := { reads := [], writes := [] }
  if par.rotate = 0 then
    forLoop (par.yres / LINES_PER_PAGE)
      (fun y t => forLoop par.xres (fun x t1 => write_vmem_cell_0_log par y x t1) t) (s0, l0)
  else if par.rotate = 180 then
    let s1 : Pack :=
      { s0 with buf := s0.buf +
          (((par.xres * par.yres % 2 ^ 32 / LINES_PER_PAGE + 2 ^ 32 - 1) % 2 ^ 32 : Nat) : Int) }
    forLoop (par.yres / LINES_PER_PAGE)
      (fun y t => forLoop par.xres (fun x t2 => write_vmem_cell_180_log par y x t2) t) (s1, l0)
  else (s0, l0)

/-! ## More frames for the statements -/

/-- A 2 x 16 frame in which every pixel is non-zero, with unequal values, over a
dirty transmit buffer. -/
def bright_par : Par :=
  { gpio_dc := 24, xres := 2, yres := 16, rotate := 0,
    vmem16 := fun k => k + 1,
    txbuf := fun _ => 0x5A }

/-- A 2 x 16 frame in which every pixel is zero, over a dirty transmit buffer. -/
def dark_par : Par :=
  { gpio_dc := 24, xres := 2, yres := 16, rotate := 0,
    vmem16 := fun _ => 0,
    txbuf := fun _ => 0xA5 }

/-- The strip display without a data/command line (`par->gpio.dc == -1`). -/
def nodc_par : Par :=
  { gpio_dc := -1, xres := 2, yres := 64, rotate := 0,
    vmem16 := fun _ => 0,
    txbuf := fun _ => 0 }

/-! ## Lemmas: the bus -/

theorem write_data_command_eq (tr : Transport) (par : Par) (dc val : Nat) (bus : Bus) :
    write_data_command tr par dc val bus = ⟨bus.trace ++ byte_events par dc (val % 256)⟩ := by
  unfold write_data_command fbtftops_write byte_events Bus.emit toU8
  by_cases h : par.gpio_dc = -1 <;> simp [h]

theorem write_reg_eq (tr : Transport) (par : Par) (val : Nat) (bus : Bus) :
    write_reg tr par val bus = ⟨bus.trace ++ command par (val % 256)⟩ := by
  unfold write_reg command
  exact write_data_command_eq tr par 0 val bus

/-! ## Lemmas: loops -/

theorem range8 : List.range 8 = [0, 1, 2, 3, 4, 5, 6, 7] := by decide

theorem forLoop_succ {σ : Type} (n : Nat) (body : Nat → σ → σ) (s : σ) :
    forLoop (n + 1) body s = body n (forLoop n body s) := by
  simp [forLoop, List.range_succ, List.foldl_append]

theorem forLoop_zero {σ : Type} (body : Nat → σ → σ) (s : σ) : forLoop 0 body s = s := rfl

theorem toChar_succ (isSigned : Bool) (k : Nat) :
    toChar isSigned (toChar isSigned k + 1) = toChar isSigned ((k + 1 : Nat) : Int) := by
  unfold toChar
  cases isSigned
  · simp
  · simp; omega

/-- A counting `char` loop whose counter stays representable runs its body for
`0, 1, ..., n-1` and stops. -/
theorem charLoop_count {σ : Type} (isSigned : Bool) (cond : Int → Bool)
    (body : Int → σ → Option σ) (g : Nat → σ → σ) (n : Nat)
    (hk : ∀ k : Nat, k < n → toChar isSigned k = k)
    (hc : ∀ k : Nat, k < n → cond k = true)
    (hx : cond (toChar isSigned n) = false)
    (hb : ∀ k : Nat, k < n → ∀ s, body k s = some (g k s))
    (fuel : Nat) (hf : n < fuel) (s : σ) :
    charLoop isSigned cond body fuel 0 s = some (forLoop n g s) := by
  have key : ∀ m k : Nat, k + m = n → ∀ fuel, m < fuel → ∀ s,
      charLoop isSigned cond body fuel (toChar isSigned k) s
        = some ((List.range' k m).foldl (fun s j => g j s) s) := by
    intro m
    induction m with
    | zero =>
      intro k hkm fuel hfuel s
      obtain ⟨f, rfl⟩ : ∃ f, fuel = f + 1 := ⟨fuel - 1, by omega⟩
      have : k = n := by omega
      subst this
      simp [charLoop, hx]
    | succ m ih =>
      intro k hkm fuel hfuel s
      obtain ⟨f, rfl⟩ : ∃ f, fuel = f + 1 := ⟨fuel - 1, by omega⟩
      have hlt : k < n := by omega
      rw [hk k hlt]
      simp only [charLoop, hc k hlt, if_true, hb k hlt]
      rw [← hk k hlt, toChar_succ, ih (k + 1) (by omega) f (by omega)]
      simp [List.range']
  have h0 := key n 0 (by omega) fuel hf s
  have hz : toChar isSigned ((0 : Nat) : Int) = 0 := by
    unfold toChar; cases isSigned <;> simp
  rw [hz] at h0
  rw [h0, forLoop, List.range_eq_range']

/-- A signed `char` counter never leaves `-128..127`: a loop whose test holds on
that whole range does not stop, whatever the fuel. -/
theorem charLoop_signed_none {σ : Type} (cond : Int → Bool) (body : Int → σ → Option σ)
    (hc : ∀ c : Int, -128 ≤ c → c ≤ 127 → cond c = true) :
    ∀ (fuel : Nat) (c : Int) (s : σ), -128 ≤ c → c ≤ 127 →
      charLoop true cond body fuel c s = none := by
  intro fuel
  induction fuel with
  | zero => intro c s _ _; rfl
  | succ f ih =>
    intro c s h1 h2
    simp only [charLoop, hc c h1 h2, if_true]
    cases body c s with
    | none => rfl
    | some s1 =>
      simp only
      apply ih
      · unfold toChar; simp; omega
      · unfold toChar; simp; omega

/-! ## Lemmas: one packed byte -/

theorem byte_of_bools_id : ∀ b0 b1 b2 b3 b4 b5 b6 b7 : Bool,
    byte_of_bools b0 b1 b2 b3 b4 b5 b6 b7 id < 256 ∧
    (byte_of_bools b0 b1 b2 b3 b4 b5 b6 b7 id).testBit 0 = b0 ∧
    (byte_of_bools b0 b1 b2 b3 b4 b5 b6 b7 id).testBit 1 = b1 ∧
    (byte_of_bools b0 b1 b2 b3 b4 b5 b6 b7 id).testBit 2 = b2 ∧
    (byte_of_bools b0 b1 b2 b3 b4 b5 b6 b7 id).testBit 3 = b3 ∧
    (byte_of_bools b0 b1 b2 b3 b4 b5 b6 b7 id).testBit 4 = b4 ∧
    (byte_of_bools b0 b1 b2 b3 b4 b5 b6 b7 id).testBit 5 = b5 ∧
    (byte_of_bools b0 b1 b2 b3 b4 b5 b6 b7 id).testBit 6 = b6 ∧
    (byte_of_bools b0 b1 b2 b3 b4 b5 b6 b7 id).testBit 7 = b7 := by
  decide

theorem byte_of_bools_rev : ∀ b0 b1 b2 b3 b4 b5 b6 b7 : Bool,
    byte_of_bools b0 b1 b2 b3 b4 b5 b6 b7 (fun i => 7 - i) < 256 ∧
    (byte_of_bools b0 b1 b2 b3 b4 b5 b6 b7 (fun i => 7 - i)).testBit 7 = b0 ∧
    (byte_of_bools b0 b1 b2 b3 b4 b5 b6 b7 (fun i => 7 - i)).testBit 6 = b1 ∧
    (byte_of_bools b0 b1 b2 b3 b4 b5 b6 b7 (fun i => 7 - i)).testBit 5 = b2 ∧
    (byte_of_bools b0 b1 b2 b3 b4 b5 b6 b7 (fun i => 7 - i)).testBit 4 = b3 ∧
    (byte_of_bools b0 b1 b2 b3 b4 b5 b6 b7 (fun i => 7 - i)).testBit 3 = b4 ∧
    (byte_of_bools b0 b1 b2 b3 b4 b5 b6 b7 (fun i => 7 - i)).testBit 2 = b5 ∧
    (byte_of_bools b0 b1 b2 b3 b4 b5 b6 b7 (fun i => 7 - i)).testBit 1 = b6 ∧
    (byte_of_bools b0 b1 b2 b3 b4 b5 b6 b7 (fun i => 7 - i)).testBit 0 = b7 := by
  decide

theorem packed_byte_eq_bools (bit pos : Nat → Nat) (hb : ∀ i, bit i = 0 ∨ bit i = 1) :
    packed_byte bit pos =
      byte_of_bools (decide (bit 0 = 1)) (decide (bit 1 = 1)) (decide (bit 2 = 1))
        (decide (bit 3 = 1)) (decide (bit 4 = 1)) (decide (bit 5 = 1)) (decide (bit 6 = 1))
        (decide (bit 7 = 1)) pos := by
  have hd : ∀ i, (decide (bit i = 1)).toNat = bit i := by
    intro i
    rcases hb i with h | h <;> simp [h]
  simp only [byte_of_bools, packed_byte, forLoop, range8, List.foldl, List.getD_cons_zero,
    List.getD_cons_succ, hd]

theorem pixel_bit_cases (par : Par) (y x i : Nat) :
    pixel_bit par y x i = 0 ∨ pixel_bit par y x i = 1 := by
  unfold pixel_bit
  split <;> simp

theorem pixel_bit_eq_one (par : Par) (y x i : Nat) :
    pixel_bit par y x i = 1 ↔ par.vmem16 (((y * 8 + i) * par.xres + x) % 2 ^ 32) ≠ 0 := by
  unfold pixel_bit
  split <;> simp_all

/-- Forward packing: the byte is below 256 and its bit `i` is the bit fed at step `i`. -/
theorem packed_byte_id (bit : Nat → Nat) (hb : ∀ i, bit i = 0 ∨ bit i = 1) :
    packed_byte bit id < 256 ∧
      ∀ i, i < 8 → (packed_byte bit id).testBit i = decide (bit i = 1) := by
  rw [packed_byte_eq_bools bit id hb]
  obtain ⟨h, h0, h1, h2, h3, h4, h5, h6, h7⟩ := byte_of_bools_id (decide (bit 0 = 1))
    (decide (bit 1 = 1)) (decide (bit 2 = 1)) (decide (bit 3 = 1)) (decide (bit 4 = 1))
    (decide (bit 5 = 1)) (decide (bit 6 = 1)) (decide (bit 7 = 1))
  refine ⟨h, ?_⟩
  intro i hi
  interval_cases i <;> assumption

/-- Backward packing: the byte is below 256 and its bit `7 - i` is the bit fed at step `i`. -/
theorem packed_byte_rev (bit : Nat → Nat) (hb : ∀ i, bit i = 0 ∨ bit i = 1) :
    packed_byte bit (fun i => 7 - i) < 256 ∧
      ∀ i, i < 8 → (packed_byte bit (fun i => 7 - i)).testBit (7 - i) = decide (bit i = 1) := by
  rw [packed_byte_eq_bools bit _ hb]
  obtain ⟨h, h0, h1, h2, h3, h4, h5, h6, h7⟩ := byte_of_bools_rev (decide (bit 0 = 1))
    (decide (bit 1 = 1)) (decide (bit 2 = 1)) (decide (bit 3 = 1)) (decide (bit 4 = 1))
    (decide (bit 5 = 1)) (decide (bit 6 = 1)) (decide (bit 7 = 1))
  refine ⟨h, ?_⟩
  intro i hi
  interval_cases i <;> assumption

/-! ## Lemmas: the packing loops -/

theorem store_same (mem : Int → Nat) (p : Int) (v : Nat) : store mem p v p = v := by
  simp [store]

theorem store_other (mem : Int → Nat) (p a : Int) (v : Nat) (h : a ≠ p) :
    store mem p v a = mem a := by
  simp [store, h]

theorem store_store (mem : Int → Nat) (p : Int) (v w : Nat) :
    store (store mem p v) p w = store mem p w := by
  funext a
  by_cases h : a = p <;> simp [store, h]

theorem write_vmem_cell_0_eq (par : Par) (y x : Nat) (s : Pack) :
    write_vmem_cell_0 par y x s =
      ⟨store s.mem s.buf (packed_byte (pixel_bit par y x) id), s.buf + 1⟩ := by
  simp only [write_vmem_cell_0, packed_byte, forLoop, range8, List.foldl, store_same,
    store_store, id]

theorem write_vmem_cell_180_eq (par : Par) (y x : Nat) (s : Pack) :
    write_vmem_cell_180 par y x s =
      ⟨store s.mem s.buf (packed_byte (pixel_bit par y x) (fun i => 7 - i)), s.buf - 1⟩ := by
  simp only [write_vmem_cell_180, packed_byte, forLoop, range8, List.foldl, store_same,
    store_store]

/-- One row of cells, each storing `v x` at the pointer and moving it by `d`. -/
theorem sweep_row (d : Int) (hd : d ≠ 0) (v : Nat → Nat) (cell : Nat → Pack → Pack)
    (hcell : ∀ x s, cell x s = ⟨store s.mem s.buf (v x), s.buf + d⟩) (W : Nat) (s : Pack) :
    (forLoop W cell s).buf = s.buf + d * W ∧
    (∀ x, x < W → (forLoop W cell s).mem (s.buf + d * x) = v x) ∧
    (∀ a, (∀ x, x < W → a ≠ s.buf + d * x) → (forLoop W cell s).mem a = s.mem a) := by
  induction W with
  | zero => simp [forLoop_zero]
  | succ n ih =>
    obtain ⟨h1, h2, h3⟩ := ih
    rw [forLoop_succ, hcell]
    refine ⟨?_, ?_, ?_⟩
    · simp only [h1]; push_cast; ring
    · intro x hx
      by_cases hxn : x = n
      · subst hxn
        simp only [h1, store_same]
      · have hne : s.buf + d * (x : Int) ≠ (forLoop n cell s).buf := by
          rw [h1]
          intro h
          have h5 : d * (x : Int) = d * (n : Int) := by linarith
          have h6 : (x : Int) = (n : Int) := mul_left_cancel₀ hd h5
          exact hxn (by exact_mod_cast h6)
        simp only [store_other _ _ _ _ hne]
        exact h2 x (by omega)
    · intro a ha
      have hne : a ≠ (forLoop n cell s).buf := by
        rw [h1]; exact ha n (by omega)
      simp only [store_other _ _ _ _ hne]
      exact h3 a (fun x hx => ha x (by omega))

/-- All pages of cells: page `y`, column `x` lands `y * W + x` steps of `d` from
the start, and nothing else is touched. -/
theorem sweep_pages (d : Int) (hd : d ≠ 0) (v : Nat → Nat → Nat)
    (cell : Nat → Nat → Pack → Pack)
    (hcell : ∀ y x s, cell y x s = ⟨store s.mem s.buf (v y x), s.buf + d⟩)
    (W P : Nat) (s : Pack) :
    (forLoop P (fun y t => forLoop W (cell y) t) s).buf = s.buf + d * ((P * W : Nat) : Int) ∧
    (∀ y x, y < P → x < W →
      (forLoop P (fun y t => forLoop W (cell y) t) s).mem
        (s.buf + d * ((y * W + x : Nat) : Int)) = v y x) ∧
    (∀ a, (∀ y x, y < P → x < W → a ≠ s.buf + d * ((y * W + x : Nat) : Int)) →
      (forLoop P (fun y t => forLoop W (cell y) t) s).mem a = s.mem a) := by
  induction P with
  | zero => simp [forLoop_zero]
  | succ n ih =>
    obtain ⟨h1, h2, h3⟩ := ih
    rw [forLoop_succ]
    obtain ⟨r1, r2, r3⟩ := sweep_row d hd (v n) (cell n) (hcell n) W
      (forLoop n (fun y t => forLoop W (cell y) t) s)
    refine ⟨?_, ?_, ?_⟩
    · rw [r1, h1]; push_cast; ring
    · intro y x hy hx
      by_cases hyn : y = n
      · subst hyn
        have := r2 x hx
        rw [h1] at this
        rw [← this]
        congr 1
        push_cast; ring
      · have hylt : y < n := by omega
        rw [r3, h2 y x hylt hx]
        intro x1 hx1
        rw [h1]
        intro h
        have h5 : d * ((y * W + x : Nat) : Int) = d * ((n * W + x1 : Nat) : Int) := by
          push_cast; push_cast at h; linarith
        have h6 : ((y * W + x : Nat) : Int) = ((n * W + x1 : Nat) : Int) :=
          mul_left_cancel₀ hd h5
        have h7 : y * W + x = n * W + x1 := by exact_mod_cast h6
        have h8 : (y + 1) * W ≤ n * W := Nat.mul_le_mul_right W (by omega)
        rw [Nat.add_mul, Nat.one_mul] at h8
        omega
    · intro a ha
      rw [r3, h3]
      · intro y x hy hx
        exact ha y x (by omega) hx
      · intro x hx
        rw [h1]
        have := ha n x (by omega) hx
        intro h
        apply this
        rw [h]; push_cast; ring

theorem pixel_index_fits (W H y i x : Nat) (hfit : W * H < 2 ^ 31) (hy : y < H / 8)
    (hi : i < 8) (hx : x < W) : ((y * 8 + i) * W + x) % 2 ^ 32 = (y * 8 + i) * W + x := by
  apply Nat.mod_eq_of_lt
  have h1 : y * 8 + i + 1 ≤ H := by omega
  have h2 : (y * 8 + i + 1) * W ≤ H * W := Nat.mul_le_mul_right W h1
  rw [Nat.add_mul, Nat.one_mul, Nat.mul_comm H W] at h2
  omega

/-- Result of the `rotate = 0` case: byte `y * xres + x` is the forward packing of
page `y`, column `x`; bytes outside `0 .. (yres/8) * xres - 1` keep their value. -/
theorem write_vmem_pack_0 (par : Par) (h0 : par.rotate = 0) :
    (∀ y x, y < par.yres / 8 → x < par.xres →
      (write_vmem_pack par).mem ((y * par.xres + x : Nat) : Int)
        = packed_byte (pixel_bit par y x) id) ∧
    (∀ a : Int, (a < 0 ∨ ((par.yres / 8 * par.xres : Nat) : Int) ≤ a) →
      (write_vmem_pack par).mem a = par.txbuf a) := by
  obtain ⟨_, h2, h3⟩ := sweep_pages 1 (by decide) (fun y x => packed_byte (pixel_bit par y x) id)
    (write_vmem_cell_0 par) (fun y x s => by rw [write_vmem_cell_0_eq]) par.xres (par.yres / 8)
    ⟨par.txbuf, 0⟩
  have hdef : write_vmem_pack par =
      forLoop (par.yres / 8) (fun y t => forLoop par.xres (write_vmem_cell_0 par y) t)
        ⟨par.txbuf, 0⟩ := by
    simp [write_vmem_pack, h0, LINES_PER_PAGE]
  rw [hdef]
  refine ⟨?_, ?_⟩
  · intro y x hy hx
    have := h2 y x hy hx
    simpa using this
  · intro a ha
    apply h3
    intro y x hy hx
    have h8 : (y + 1) * par.xres ≤ par.yres / 8 * par.xres := Nat.mul_le_mul_right _ (by omega)
    rw [Nat.add_mul, Nat.one_mul] at h8
    simp only [zero_add, one_mul]
    rcases ha with ha | ha
    · omega
    · have : ((y * par.xres + x : Nat) : Int) < ((par.yres / 8 * par.xres : Nat) : Int) := by
        exact_mod_cast (by omega : y * par.xres + x < par.yres / 8 * par.xres)
      omega

/-- Result of the `rotate = 180` case: the byte packed for page `y`, column `x`
lands at page `P - 1 - y`, column `W - 1 - x`, bits reversed; bytes outside the
frame keep their value. -/
theorem write_vmem_pack_180 (par : Par) (h180 : par.rotate = 180) (h8 : 8 ∣ par.yres)
    (hfit : par.xres * par.yres < 2 ^ 31) :
    (∀ y x, y < par.yres / 8 → x < par.xres →
      (write_vmem_pack par).mem
          (((par.yres / 8 - 1 - y) * par.xres + (par.xres - 1 - x) : Nat) : Int)
        = packed_byte (pixel_bit par y x) (fun i => 7 - i)) ∧
    (∀ a : Int, (a < 0 ∨ ((par.yres / 8 * par.xres : Nat) : Int) ≤ a) →
      (write_vmem_pack par).mem a = par.txbuf a) := by
  obtain ⟨_, h2, h3⟩ := sweep_pages (-1) (by decide)
    (fun y x => packed_byte (pixel_bit par y x) (fun i => 7 - i))
    (write_vmem_cell_180 par)
    (fun y x s => by rw [write_vmem_cell_180_eq]; rfl) par.xres (par.yres / 8)
    ⟨par.txbuf, (((par.xres * par.yres % 2 ^ 32 / 8 + 2 ^ 32 - 1) % 2 ^ 32 : Nat) : Int)⟩
  have hdef : write_vmem_pack par =
      forLoop (par.yres / 8) (fun y t => forLoop par.xres (write_vmem_cell_180 par y) t)
        ⟨par.txbuf, (((par.xres * par.yres % 2 ^ 32 / 8 + 2 ^ 32 - 1) % 2 ^ 32 : Nat) : Int)⟩ := by
    unfold write_vmem_pack LINES_PER_PAGE
    rw [if_neg (by rw [h180]; decide), if_pos h180]
    simp only [zero_add]
  rw [hdef]
  have hdiv : par.xres * par.yres / 8 = par.yres / 8 * par.xres := by
    rw [Nat.mul_div_assoc _ h8, Nat.mul_comm]
  have hmod : par.xres * par.yres % 2 ^ 32 = par.xres * par.yres :=
    Nat.mod_eq_of_lt (by omega)
  have hle : par.yres / 8 * par.xres < 2 ^ 31 := by
    rw [← hdiv]; omega
  -- the start offset is `P * W - 1` as soon as one byte is written
  have hstart : 0 < par.yres / 8 * par.xres →
      (par.xres * par.yres % 2 ^ 32 / 8 + 2 ^ 32 - 1) % 2 ^ 32 = par.yres / 8 * par.xres - 1 := by
    intro hpos
    rw [hmod, hdiv]
    omega
  refine ⟨?_, ?_⟩
  · intro y x hy hx
    have h8 : (y + 1) * par.xres ≤ par.yres / 8 * par.xres := Nat.mul_le_mul_right _ (by omega)
    rw [Nat.add_mul, Nat.one_mul] at h8
    have hpos : 0 < par.yres / 8 * par.xres := by omega
    have := h2 y x hy hx
    rw [← this]
    congr 1
    simp only [hstart hpos]
    obtain ⟨e, he⟩ : ∃ e, par.yres / 8 = y + 1 + e := ⟨par.yres / 8 - 1 - y, by omega⟩
    obtain ⟨f, hf⟩ : ∃ f, par.xres = x + 1 + f := ⟨par.xres - 1 - x, by omega⟩
    have e1 : par.yres / 8 - 1 - y = e := by omega
    have e2 : par.xres - 1 - x = f := by omega
    have e3 : par.yres / 8 * par.xres - 1 = (e * par.xres + f) + (y * par.xres + x) := by
      rw [e1, e2] at *
      have : par.yres / 8 * par.xres = (y + 1 + e) * par.xres := by rw [he]
      rw [this, Nat.add_mul, Nat.add_mul, Nat.one_mul]
      omega
    rw [e1, e2, e3]
    push_cast
    ring
  · intro a ha
    apply h3
    intro y x hy hx
    have h8 : (y + 1) * par.xres ≤ par.yres / 8 * par.xres := Nat.mul_le_mul_right _ (by omega)
    rw [Nat.add_mul, Nat.one_mul] at h8
    have hpos : 0 < par.yres / 8 * par.xres := by omega
    simp only [hstart hpos]
    have hc : ((par.yres / 8 * par.xres - 1 : Nat) : Int)
        = ((par.yres / 8 * par.xres : Nat) : Int) - 1 := by
      rw [Nat.cast_sub (by omega)]; simp
    rw [hc]
    have : ((y * par.xres + x : Nat) : Int) < ((par.yres / 8 * par.xres : Nat) : Int) := by
      exact_mod_cast (by omega : y * par.xres + x < par.yres / 8 * par.xres)
    omega

theorem flip_index (P W y x : Nat) (hy : y < P) (hx : x < W) :
    (P - 1 - y) * W + (W - 1 - x) = P * W - 1 - (y * W + x) := by
  obtain ⟨e, rfl⟩ : ∃ e, P = y + 1 + e := ⟨P - 1 - y, by omega⟩
  obtain ⟨f, rfl⟩ : ∃ f, W = x + 1 + f := ⟨W - 1 - x, by omega⟩
  have e1 : y + 1 + e - 1 - y = e := by omega
  have e2 : x + 1 + f - 1 - x = f := by omega
  rw [e1, e2]
  have : (y + 1 + e) * (x + 1 + f) = e * (x + 1 + f) + f + (y * (x + 1 + f) + x) + 1 := by ring
  rw [this]
  omega

theorem pack_index_lt (P W y x : Nat) (hy : y < P) (hx : x < W) : y * W + x < P * W := by
  have h8 : (y + 1) * W ≤ P * W := Nat.mul_le_mul_right _ (by omega)
  rw [Nat.add_mul, Nat.one_mul] at h8
  omega

theorem bitrev8_of_bools : ∀ b0 b1 b2 b3 b4 b5 b6 b7 : Bool,
    bitrev8 (byte_of_bools b0 b1 b2 b3 b4 b5 b6 b7 id)
      = byte_of_bools b0 b1 b2 b3 b4 b5 b6 b7 (fun i => 7 - i) := by
  decide

theorem bitrev8_packed_byte (bit : Nat → Nat) (hb : ∀ i, bit i = 0 ∨ bit i = 1) :
    bitrev8 (packed_byte bit id) = packed_byte bit (fun i => 7 - i) := by
  rw [packed_byte_eq_bools bit id hb, packed_byte_eq_bools bit _ hb]
  exact bitrev8_of_bools _ _ _ _ _ _ _ _

set_option maxRecDepth 100000 in
theorem bitrev8_bitrev8 : ∀ b, b < 256 → bitrev8 (bitrev8 b) = b := by
  decide

theorem mirror_mirror (l : List Nat) (hl : ∀ b ∈ l, b < 256) : mirror (mirror l) = l := by
  unfold mirror
  rw [← List.map_reverse, List.reverse_reverse, List.map_map]
  conv_rhs => rw [← List.map_id l]
  apply List.map_congr_left
  intro b hb
  exact bitrev8_bitrev8 b (hl b hb)

theorem single_bools_id : ∀ k, k < 8 →
    byte_of_bools (decide (0 = k)) (decide (1 = k)) (decide (2 = k)) (decide (3 = k))
      (decide (4 = k)) (decide (5 = k)) (decide (6 = k)) (decide (7 = k)) id = 1 <<< k := by
  decide

theorem single_bools_rev : ∀ k, k < 8 →
    byte_of_bools (decide (0 = k)) (decide (1 = k)) (decide (2 = k)) (decide (3 = k))
      (decide (4 = k)) (decide (5 = k)) (decide (6 = k)) (decide (7 = k)) (fun i => 7 - i)
      = 1 <<< (7 - k) := by
  decide

/-- A byte fed a single set bit, at step `k`. -/
theorem packed_byte_single (bit pos : Nat → Nat) (hb : ∀ i, bit i = 0 ∨ bit i = 1) (k : Nat)
    (h : ∀ i, i < 8 → (bit i = 1 ↔ i = k)) :
    packed_byte bit pos =
      byte_of_bools (decide (0 = k)) (decide (1 = k)) (decide (2 = k)) (decide (3 = k))
        (decide (4 = k)) (decide (5 = k)) (decide (6 = k)) (decide (7 = k)) pos := by
  rw [packed_byte_eq_bools bit pos hb]
  simp only [h 0 (by decide), h 1 (by decide), h 2 (by decide), h 3 (by decide),
    h 4 (by decide), h 5 (by decide), h 6 (by decide), h 7 (by decide)]

/-- A byte fed no set bit is zero. -/
theorem packed_byte_none (bit pos : Nat → Nat) (h : ∀ i, i < 8 → bit i = 0) :
    packed_byte bit pos = 0 := by
  simp [packed_byte, forLoop, range8, toU8, h 0 (by decide), h 1 (by decide), h 2 (by decide),
    h 3 (by decide), h 4 (by decide), h 5 (by decide), h 6 (by decide), h 7 (by decide)]

theorem divmod_unique (W a b x c : Nat) (hx : x < W) (hc : c < W) :
    a * W + x = b * W + c ↔ a = b ∧ x = c := by
  constructor
  · intro h
    have ha : (a * W + x) / W = a := by
      rw [Nat.mul_comm, Nat.mul_add_div (by omega), Nat.div_eq_of_lt hx]; rfl
    have hb : (b * W + c) / W = b := by
      rw [Nat.mul_comm, Nat.mul_add_div (by omega), Nat.div_eq_of_lt hc]; rfl
    have hab : a = b := by rw [← ha, ← hb, h]
    subst hab
    exact ⟨rfl, by omega⟩
  · rintro ⟨rfl, rfl⟩; rfl

/-- In a frame whose only lit pixel is `(r, c)`, the bit fed at step `i` of page `y`,
column `x` is set exactly for `y * 8 + i = r` and `x = c`. -/
theorem pixel_bit_single (par : Par) (hfit : par.xres * par.yres < 2 ^ 31) (r c : Nat)
    (hc : c < par.xres) (hpix : ∀ k, par.vmem16 k ≠ 0 ↔ k = r * par.xres + c)
    (y x i : Nat) (hy : y < par.yres / 8) (hx : x < par.xres) (hi : i < 8) :
    pixel_bit par y x i = 1 ↔ (y * 8 + i = r ∧ x = c) := by
  rw [pixel_bit_eq_one, pixel_index_fits par.xres par.yres y i x hfit hy hi hx, hpix,
    divmod_unique par.xres _ _ _ _ hx hc]

/-! ## Frame transcoder: bit layout (C1, C2) -/

/-- C1. Normal-orientation packing: with `rotate = 0`, for a frame whose pixel
count fits the 32-bit index arithmetic, bit `i` of packed byte `p * W + c` is set
exactly when pixel `(p*8 + i) * W + c` is non-zero, for every page `p < H/8`,
column `c < W` and bit `i < 8` (for every height, a multiple of 8 or not). -/
theorem normal_packing (par : Par) (h0 : par.rotate = 0)
    (hfit : par.xres * par.yres < 2 ^ 31)
    (p c i : Nat) (hp : p < par.yres / 8) (hc : c < par.xres) (hi : i < 8) :
    ((write_vmem_pack par).mem ((p * par.xres + c : Nat) : Int)).testBit i = true ↔
      par.vmem16 ((p * 8 + i) * par.xres + c) ≠ 0 := by
  rw [(write_vmem_pack_0 par h0).1 p c hp hc,
    (packed_byte_id _ (pixel_bit_cases par p c)).2 i hi, decide_eq_true_iff,
    pixel_bit_eq_one, pixel_index_fits par.xres par.yres p i c hfit hp hi hc]

/-- Witness of C1 on the 2 x 16 demo frame: page 1, column 0, bit 1 is pixel 18. -/
theorem normal_packing_witness :
    ((write_vmem_pack demo_par).mem 2).testBit 1 = true ↔ demo_par.vmem16 18 ≠ 0 :=
  normal_packing demo_par rfl (by decide) 1 0 1 (by decide) (by decide) (by decide)

/-- C2 as worded fails: on the 1 x 16 frame with only pixel (0,0) lit, page 0,
column 0, bit 0 of the normal frame is set while bit 7 of the same page of the
flipped frame is clear. -/
theorem rotation_law_same_page_fails :
    ((write_vmem_pack (with_rotate tall_par 180)).mem
        ((0 * tall_par.xres + (tall_par.xres - 1 - 0) : Nat) : Int)).testBit (7 - 0)
      ≠ ((write_vmem_pack (with_rotate tall_par 0)).mem
        ((0 * tall_par.xres + 0 : Nat) : Int)).testBit 0 := by
  decide

/-- C2 amended. Rotation law with the page mirrored too: for a frame of height a
multiple of 8, bit `7 - i` of flipped byte `(P-1-p) * W + (W-1-c)` equals bit `i`
of normal byte `p * W + c`, where `P = H/8`. -/
theorem rotation_law (par : Par) (h8 : 8 ∣ par.yres) (hfit : par.xres * par.yres < 2 ^ 31)
    (p c i : Nat) (hp : p < par.yres / 8) (hc : c < par.xres) (hi : i < 8) :
    ((write_vmem_pack (with_rotate par 180)).mem
        (((par.yres / 8 - 1 - p) * par.xres + (par.xres - 1 - c) : Nat) : Int)).testBit (7 - i)
      = ((write_vmem_pack (with_rotate par 0)).mem
        ((p * par.xres + c : Nat) : Int)).testBit i := by
  unfold with_rotate
  have hn := (write_vmem_pack_0 { par with rotate := 0 } rfl).1 p c hp hc
  have hf := (write_vmem_pack_180 { par with rotate := 180 } rfl h8 hfit).1 p c hp hc
  rw [hn, hf]
  have hbn := (packed_byte_id _ (pixel_bit_cases { par with rotate := 0 } p c)).2 i hi
  have hbf := (packed_byte_rev _ (pixel_bit_cases { par with rotate := 180 } p c)).2 i hi
  rw [hbn, hbf]
  rfl

/-- Witness of C2 amended on the 2 x 16 demo frame (page 0, column 1, bit 1). -/
theorem rotation_law_witness :
    ((write_vmem_pack (with_rotate demo_par 180)).mem 2).testBit 6
      = ((write_vmem_pack (with_rotate demo_par 0)).mem 1).testBit 1 :=
  rotation_law demo_par (by decide) (by decide) 0 1 1 (by decide) (by decide) (by decide)

/-! ## Frame transcoder: mirror relation and single pixels (C3, C4) -/

/-- C3. Mirror relation: for a frame of height a multiple of 8, the packed frame
for `rotate = 180` is the packed frame for `rotate = 0` with the bytes reversed
end-to-end and each byte bit-reversed; and mirroring any byte sequence twice
returns it. -/
theorem mirror_relation (par : Par) (h8 : 8 ∣ par.yres) (hfit : par.xres * par.yres < 2 ^ 31) :
    packed_frame (write_vmem_pack (with_rotate par 180)).mem (par.yres / 8 * par.xres)
      = mirror (packed_frame (write_vmem_pack (with_rotate par 0)).mem
          (par.yres / 8 * par.xres)) ∧
    ∀ l : List Nat, (∀ b ∈ l, b < 256) → mirror (mirror l) = l := by
  unfold with_rotate
  refine ⟨?_, mirror_mirror⟩
  apply List.ext_getElem
  · simp [packed_frame, mirror]
  · intro k h1 h2
    have hk : k < par.yres / 8 * par.xres := by simpa [packed_frame] using h1
    have hW : 0 < par.xres := by
      rcases Nat.eq_zero_or_pos par.xres with h | h
      · rw [h] at hk; omega
      · exact h
    simp only [packed_frame, mirror, List.getElem_map, List.getElem_reverse, List.getElem_range,
      List.length_map, List.length_range]
    -- the cell packed at step `j` of the walk
    obtain ⟨j, hj⟩ : ∃ j, j = par.yres / 8 * par.xres - 1 - k := ⟨_, rfl⟩
    have hjlt : j < par.yres / 8 * par.xres := by omega
    have hy : j / par.xres < par.yres / 8 :=
      Nat.div_lt_of_lt_mul (by rw [Nat.mul_comm]; exact hjlt)
    have hx : j % par.xres < par.xres := Nat.mod_lt _ hW
    have hjeq : j / par.xres * par.xres + j % par.xres = j := Nat.div_add_mod' j par.xres
    have hn := (write_vmem_pack_0 { par with rotate := 0 } rfl).1 _ _ hy hx
    have hf := (write_vmem_pack_180 { par with rotate := 180 } rfl h8 hfit).1 _ _ hy hx
    have hidx := flip_index (par.yres / 8) par.xres _ _ hy hx
    simp only [hjeq] at hn hidx
    simp only [hidx] at hf
    have hkj : par.yres / 8 * par.xres - 1 - j = k := by omega
    rw [hkj] at hf
    rw [hf, ← hj, hn]
    exact (bitrev8_packed_byte _ (pixel_bit_cases _ _ _)).symm

/-- Witness of C3 on the 2 x 16 demo frame. -/
theorem mirror_relation_witness :
    packed_frame (write_vmem_pack (with_rotate demo_par 180)).mem 4
      = mirror (packed_frame (write_vmem_pack (with_rotate demo_par 0)).mem 4) ∧
    ∀ l : List Nat, (∀ b ∈ l, b < 256) → mirror (mirror l) = l :=
  mirror_relation demo_par (by decide) (by decide)

/-- C4. Single-pixel frames: when the only non-zero pixel of a `W x H` frame
(`H` a multiple of 8, `P = H/8`) is at row `r`, column `c`, the `rotate = 0` frame
holds `1 << (r mod 8)` at page `r/8`, column `c` and zero elsewhere, and the
`rotate = 180` frame holds `1 << (7 - r mod 8)` at page `P-1-r/8`, column `W-1-c`
and zero elsewhere. -/
theorem single_pixel (par : Par) (h8 : 8 ∣ par.yres) (hfit : par.xres * par.yres < 2 ^ 31)
    (r c : Nat) (hr : r < par.yres) (hc : c < par.xres)
    (hpix : ∀ k, par.vmem16 k ≠ 0 ↔ k = r * par.xres + c) :
    (∀ p x, p < par.yres / 8 → x < par.xres →
      (write_vmem_pack (with_rotate par 0)).mem ((p * par.xres + x : Nat) : Int)
        = if p = r / 8 ∧ x = c then 1 <<< (r % 8) else 0) ∧
    (∀ p x, p < par.yres / 8 → x < par.xres →
      (write_vmem_pack (with_rotate par 180)).mem ((p * par.xres + x : Nat) : Int)
        = if p = par.yres / 8 - 1 - r / 8 ∧ x = par.xres - 1 - c
          then 1 <<< (7 - r % 8) else 0) := by
  have hbit : ∀ y x i, y < par.yres / 8 → x < par.xres → i < 8 →
      (pixel_bit par y x i = 1 ↔ (y * 8 + i = r ∧ x = c)) :=
    fun y x i hy hx hi => pixel_bit_single par hfit r c hc hpix y x i hy hx hi
  have hr8 : r % 8 < 8 := Nat.mod_lt _ (by decide)
  unfold with_rotate
  constructor
  · intro p x hp hx
    rw [(write_vmem_pack_0 { par with rotate := 0 } rfl).1 p x hp hx]
    change packed_byte (pixel_bit par p x) id = _
    by_cases hcond : p = r / 8 ∧ x = c
    · rw [if_pos hcond, packed_byte_single _ id (pixel_bit_cases par p x) (r % 8)]
      · exact single_bools_id _ hr8
      · intro i hi
        rw [hbit p x i hp hx hi]
        omega
    · rw [if_neg hcond]
      apply packed_byte_none
      intro i hi
      rcases pixel_bit_cases par p x i with h | h
      · exact h
      · exfalso
        rw [hbit p x i hp hx hi] at h
        omega
  · intro p x hp hx
    have hy : par.yres / 8 - 1 - p < par.yres / 8 := by omega
    have hx1 : par.xres - 1 - x < par.xres := by omega
    have hf := (write_vmem_pack_180 { par with rotate := 180 } rfl h8 hfit).1 _ _ hy hx1
    have e1 : par.yres / 8 - 1 - (par.yres / 8 - 1 - p) = p := by omega
    have e2 : par.xres - 1 - (par.xres - 1 - x) = x := by omega
    simp only [e1, e2] at hf
    rw [hf]
    change packed_byte (pixel_bit par _ _) _ = _
    by_cases hcond : p = par.yres / 8 - 1 - r / 8 ∧ x = par.xres - 1 - c
    · rw [if_pos hcond, packed_byte_single _ _ (pixel_bit_cases par _ _) (r % 8)]
      · exact single_bools_rev _ hr8
      · intro i hi
        rw [hbit _ _ i hy hx1 hi]
        omega
    · rw [if_neg hcond]
      apply packed_byte_none
      intro i hi
      rcases pixel_bit_cases par (par.yres / 8 - 1 - p) (par.xres - 1 - x) i with h | h
      · exact h
      · exfalso
        rw [hbit _ _ i hy hx1 hi] at h
        omega

/-- Witness of C4, the scenario of the specification: 128 x 64, pixel (0,0) lit;
normal page 0 column 0 is `0x01`, flipped page 7 column 127 is `0x80`, and their
neighbours are `0x00`. -/
theorem single_pixel_witness :
    (write_vmem_pack (with_rotate corner_par 0)).mem
        ((0 * corner_par.xres + 0 : Nat) : Int) = 0x01 ∧
    (write_vmem_pack (with_rotate corner_par 0)).mem
        ((0 * corner_par.xres + 1 : Nat) : Int) = 0x00 ∧
    (write_vmem_pack (with_rotate corner_par 180)).mem
        ((7 * corner_par.xres + 127 : Nat) : Int) = 0x80 ∧
    (write_vmem_pack (with_rotate corner_par 180)).mem
        ((0 * corner_par.xres + 0 : Nat) : Int) = 0x00 :=
  have h := single_pixel corner_par (by decide) (by decide) 0 0 (by decide) (by decide)
    (by intro k; simp [corner_par])
  ⟨(h.1 0 0 (by decide) (by decide)).trans (by decide),
    (h.1 0 1 (by decide) (by decide)).trans (by decide),
    (h.2 7 127 (by decide) (by decide)).trans (by decide),
    (h.2 0 0 (by decide) (by decide)).trans (by decide)⟩

/-! ## Lemmas: the transmission loops -/

theorem sent_events_append (par : Par) (l1 l2 : List (Nat × Nat)) :
    sent_events par (l1 ++ l2) = sent_events par l1 ++ sent_events par l2 := by
  simp [sent_events, List.flatMap_append]

theorem sent_events_single (par : Par) (dc b : Nat) :
    sent_events par [(dc, b)] = byte_events par dc b := by
  simp [sent_events]

theorem forLoop_invariant {σ : Type} (I : σ → Prop) (body : Nat → σ → σ)
    (hstep : ∀ k s, I s → I (body k s)) (n : Nat) (s : σ) (h : I s) : I (forLoop n body s) := by
  induction n with
  | zero => exact h
  | succ n ih => rw [forLoop_succ]; exact hstep n _ ih

/-- Every byte of the transmit buffer is still a `u8` value after packing. -/
theorem write_vmem_pack_lt (par : Par) (htx : ∀ a, par.txbuf a < 256) :
    ∀ a, (write_vmem_pack par).mem a < 256 := by
  have hstore : ∀ (m : Int → Nat) (p : Int) (v : Nat), (∀ a, m a < 256) → v < 256 →
      ∀ a, store m p v a < 256 := by
    intro m p v hm hv a
    unfold store
    split
    · exact hv
    · exact hm a
  have h0 : ∀ y x (s : Pack), (∀ a, s.mem a < 256) →
      ∀ a, (write_vmem_cell_0 par y x s).mem a < 256 := by
    intro y x s hs
    rw [write_vmem_cell_0_eq]
    exact hstore _ _ _ hs (packed_byte_id _ (pixel_bit_cases par y x)).1
  have h180 : ∀ y x (s : Pack), (∀ a, s.mem a < 256) →
      ∀ a, (write_vmem_cell_180 par y x s).mem a < 256 := by
    intro y x s hs
    rw [write_vmem_cell_180_eq]
    exact hstore _ _ _ hs (packed_byte_rev _ (pixel_bit_cases par y x)).1
  unfold write_vmem_pack
  split
  · exact forLoop_invariant (fun s : Pack => ∀ a, s.mem a < 256) _
      (fun y s hs => forLoop_invariant (fun s : Pack => ∀ a, s.mem a < 256) _
        (fun x s1 hs1 => h0 y x s1 hs1) _ s hs) _ _ htx
  · split
    · exact forLoop_invariant (fun s : Pack => ∀ a, s.mem a < 256) _
        (fun y s hs => forLoop_invariant (fun s : Pack => ∀ a, s.mem a < 256) _
          (fun x s1 hs1 => h180 y x s1 hs1) _ s hs) _ _ htx
    · exact htx

/-- The data loop of one page: `n` bytes from offset `s.2` on. -/
theorem send_data_loop (tr : Transport) (par : Par) (mem : Int → Nat)
    (hmem : ∀ a, mem a < 256) (n : Nat) (s : Bus × Nat) :
    forLoop n (fun _ (t : Bus × Nat) =>
        (write_data_command tr par 1 (mem (t.2 : Int)) t.1, t.2 + 1)) s
      = (⟨s.1.trace ++ sent_events par
            ((List.range n).map (fun k => (1, mem ((s.2 + k : Nat) : Int))))⟩, s.2 + n) := by
  induction n with
  | zero => simp [forLoop_zero, sent_events]
  | succ n ih =>
    rw [forLoop_succ, ih, write_data_command_eq, List.range_succ, List.map_append,
      sent_events_append]
    simp only [List.map_cons, List.map_nil, sent_events_single, Nat.mod_eq_of_lt (hmem _),
      List.append_assoc]
    rfl

theorem toChar_small (isSigned : Bool) (k : Nat) (hk : k ≤ 127) :
    toChar isSigned (k : Int) = (k : Int) := by
  unfold toChar
  cases isSigned
  · simp; omega
  · simp; omega

theorem toU32_nat (n : Nat) (hn : n < 2 ^ 32) : toU32 (n : Int) = n := by
  unfold toU32
  omega

theorem toU32_col_offset (W : Nat) (hW : W ≤ 132) :
    toU32 ((MAX_WIDTH : Int) - (W : Int)) = 132 - W := by
  unfold toU32 MAX_WIDTH
  omega

theorem page_byte (k : Nat) (hk : k < 8) :
    toU32 (Int.lor (CMD_SET_PAGE : Int) (k : Int)) % 256 = 0xB0 ||| k := by
  interval_cases k <;> decide

/-- The `char` test `column < xres` of the data loop fails at the exit value of the
counter, signed or not, for every `xres` up to 128. -/
theorem send_loop_exit (isSigned : Bool) (W : Nat) (hW : W ≤ 128) :
    decide (toU32 (toChar isSigned (W : Int)) < W) = false := by
  rw [decide_eq_false_iff_not]
  by_cases h : W ≤ 127
  · rw [toChar_small isSigned W h, toU32_nat W (by omega)]
    omega
  · have : W = 128 := by omega
    subst this
    cases isSigned <;> decide

theorem write_vmem_send_page_eq (isSigned : Bool) (tr : Transport) (par : Par)
    (mem : Int → Nat) (fuel : Nat) (hW : par.xres ≤ 128) (hmem : ∀ a, mem a < 256)
    (hfuel : 128 < fuel) (k : Nat) (hk : k < 8) (s : Bus × Nat) :
    write_vmem_send_page isSigned tr par mem fuel (k : Int) s
      = some (⟨s.1.trace ++ sent_events par
          ([(0, 0xB0 ||| k), (0, 0x00 ||| ((132 - par.xres) &&& 0xF)),
            (0, 0x10 ||| (((132 - par.xres) >>> 4) &&& 0xF)), (0, 0xE0)]
           ++ (List.range par.xres).map (fun j => (1, mem ((s.2 + j : Nat) : Int))))⟩,
        s.2 + par.xres) := by
  unfold write_vmem_send_page
  simp only [write_data_command_eq]
  rw [charLoop_count isSigned _ _
    (fun _ (t : Bus × Nat) => (write_data_command tr par 1 (mem (t.2 : Int)) t.1, t.2 + 1))
    par.xres (fun j hj => toChar_small isSigned j (by omega))
    (fun j hj => by rw [toU32_nat j (by omega)]; exact decide_eq_true hj)
    (send_loop_exit isSigned par.xres hW)
    (fun j hj t => by simp only [write_data_command_eq]) fuel (by omega)]
  rw [send_data_loop tr par mem hmem]
  have hlo : (CMD_SET_COLUMN_LOWER ||| toU32 ((MAX_WIDTH : Int) - (par.xres : Int)) &&& 0xf) % 256
      = 0x00 ||| ((132 - par.xres) &&& 0xF) := by
    rw [toU32_col_offset par.xres (by omega)]
    apply Nat.mod_eq_of_lt
    have h1 : (132 - par.xres) &&& 0xF < 2 ^ 8 :=
      Nat.and_lt_two_pow _ (by decide)
    exact Nat.or_lt_two_pow (by decide) h1
  have hhi : (CMD_SET_COLUMN_UPPER ||| toU32 ((MAX_WIDTH : Int) - (par.xres : Int)) >>> 4 &&& 0x0F)
      % 256 = 0x10 ||| (((132 - par.xres) >>> 4) &&& 0xF) := by
    rw [toU32_col_offset par.xres (by omega)]
    apply Nat.mod_eq_of_lt
    have h1 : ((132 - par.xres) >>> 4) &&& 0xF < 2 ^ 8 :=
      Nat.and_lt_two_pow _ (by decide)
    exact Nat.or_lt_two_pow (by decide) h1
  have hrmw : CMD_RMW % 256 = 0xE0 := by decide
  simp only [hlo, hhi, hrmw, page_byte k hk, sent_events_append, sent_events, List.flatMap_cons,
    List.flatMap_nil, List.append_nil, List.append_assoc, List.flatMap_append]

/-- The page loop of the transmission over `n` pages. -/
theorem send_pages_loop (par : Par) (mem : Int → Nat) (n : Nat) (bus : Bus) :
    forLoop n (fun k (s : Bus × Nat) =>
        ((⟨s.1.trace ++ sent_events par
          ([(0, 0xB0 ||| k), (0, 0x00 ||| ((132 - par.xres) &&& 0xF)),
            (0, 0x10 ||| (((132 - par.xres) >>> 4) &&& 0xF)), (0, 0xE0)]
           ++ (List.range par.xres).map (fun j => (1, mem ((s.2 + j : Nat) : Int))))⟩ : Bus),
        s.2 + par.xres)) (bus, 0)
      = (⟨bus.trace ++ sent_events par ((List.range n).flatMap (repaint_page par mem))⟩,
          n * par.xres) := by
  induction n with
  | zero => simp [forLoop_zero, sent_events]
  | succ n ih =>
    rw [forLoop_succ, ih, List.range_succ, List.flatMap_append, sent_events_append]
    simp only [List.flatMap_cons, List.flatMap_nil, List.append_nil, List.append_assoc,
      repaint_page, Nat.add_mul, Nat.one_mul, sent_events_append]

theorem write_vmem_send_eq (isSigned : Bool) (tr : Transport) (par : Par)
    (mem : Int → Nat) (fuel : Nat) (hW : par.xres ≤ 128) (hmem : ∀ a, mem a < 256)
    (hfuel : 128 < fuel) (bus : Bus) :
    write_vmem_send isSigned tr par mem fuel bus
      = some (⟨bus.trace ++ sent_events par (repaint par mem)⟩, 8 * par.xres) := by
  unfold write_vmem_send
  rw [charLoop_count isSigned _ _ _ 8 (fun j hj => toChar_small isSigned j (by omega))
    (fun j hj => decide_eq_true (by omega))
    (by rw [toChar_small isSigned 8 (by omega)]; decide)
    (fun j hj s => write_vmem_send_page_eq isSigned tr par mem fuel hW hmem hfuel j hj s)
    fuel (by omega)]
  rw [send_pages_loop]
  rfl

theorem data_bytes_append (l1 l2 : List (Nat × Nat)) :
    data_bytes (l1 ++ l2) = data_bytes l1 ++ data_bytes l2 := by
  simp [data_bytes]

theorem data_bytes_page (par : Par) (mem : Int → Nat) (page : Nat) :
    data_bytes (repaint_page par mem page)
      = (List.range par.xres).map (fun k => mem ((page * par.xres + k : Nat) : Int)) := by
  simp [data_bytes, repaint_page, List.filter_map, Function.comp_def]

theorem data_bytes_pages (par : Par) (mem : Int → Nat) (n : Nat) :
    data_bytes ((List.range n).flatMap (repaint_page par mem))
      = packed_frame mem (n * par.xres) := by
  induction n with
  | zero => simp [data_bytes, packed_frame]
  | succ n ih =>
    rw [List.range_succ, List.flatMap_append, data_bytes_append, ih]
    simp only [List.flatMap_cons, List.flatMap_nil, List.append_nil, data_bytes_page,
      packed_frame, Nat.add_mul, Nat.one_mul, List.range_add, List.map_append, List.map_map]
    rfl

theorem write_sizes_sent (par : Par) (l : List (Nat × Nat)) :
    write_sizes (sent_events par l) = List.replicate l.length 1 := by
  induction l with
  | nil => rfl
  | cons s l ih =>
    have hcons : sent_events par (s :: l) = byte_events par s.1 s.2 ++ sent_events par l := by
      simp [sent_events]
    rw [hcons]
    unfold byte_events
    by_cases h : par.gpio_dc = -1
    · simp [h, write_sizes, ih, List.replicate_succ]
    · simp [h, write_sizes, ih, List.replicate_succ]

theorem repaint_length (par : Par) (mem : Int → Nat) :
    (repaint par mem).length = 8 * (4 + par.xres) := by
  simp [repaint, range8, repaint_page]
  omega

/-! ## Repaint transmission (C5) -/

/-- C5. Repaint transmission: for `xres <= 128` and `yres = 64`, with enough fuel,
`write_vmem` returns 0 and issues, for page 0 to 7 in order, the commands
`0xB0|page`, `0x00|((132-W) & 0xF)`, `0x10|(((132-W) >> 4) & 0xF)`, `0xE0` and then
the `W` bytes `packed[page*W .. page*W + W-1]` as data; the data bytes of the
repaint are the whole packed frame, and the repaint makes `8*(4+W)` transport
writes of one byte each, whatever the pixels, the orientation and the signedness
of `char`. -/
theorem repaint_transmission (isSigned : Bool) (tr : Transport) (par : Par) (fuel : Nat)
    (bus : Bus) (hW : par.xres ≤ 128) (hH : par.yres = 64) (htx : ∀ a, par.txbuf a < 256)
    (hfuel : 128 < fuel) :
    write_vmem isSigned tr par fuel bus
      = some (0, (write_vmem_pack par).mem,
          ⟨bus.trace ++ sent_events par (repaint par (write_vmem_pack par).mem)⟩) ∧
    data_bytes (repaint par (write_vmem_pack par).mem)
      = packed_frame (write_vmem_pack par).mem (par.yres / 8 * par.xres) ∧
    write_sizes (sent_events par (repaint par (write_vmem_pack par).mem))
      = List.replicate (8 * (4 + par.xres)) 1 := by
  refine ⟨?_, ?_, ?_⟩
  · unfold write_vmem
    simp only [write_vmem_send_eq isSigned tr par _ fuel hW (write_vmem_pack_lt par htx) hfuel]
  · rw [hH]
    exact data_bytes_pages par _ 8
  · rw [write_sizes_sent, repaint_length]

/-- Witness of C5: the 2 x 64 strip, signed `char`, fuel 200, from an empty trace. -/
theorem repaint_transmission_witness :
    write_vmem true good_transport strip_par 200 ⟨[]⟩
      = some (0, (write_vmem_pack strip_par).mem,
          ⟨[] ++ sent_events strip_par (repaint strip_par (write_vmem_pack strip_par).mem)⟩) ∧
    data_bytes (repaint strip_par (write_vmem_pack strip_par).mem)
      = packed_frame (write_vmem_pack strip_par).mem (strip_par.yres / 8 * strip_par.xres) ∧
    write_sizes (sent_events strip_par (repaint strip_par (write_vmem_pack strip_par).mem))
      = List.replicate (8 * (4 + strip_par.xres)) 1 :=
  repaint_transmission true good_transport strip_par 200 ⟨[]⟩ (by decide) rfl
    (fun _ => (by decide : (0 : Nat) < 256)) (by decide)

/-! ## Lemmas: `init_display` -/

theorem init_display_regs_eq (tr : Transport) (par : Par) (bus : Bus) :
    init_display_regs tr par bus = ⟨bus.trace ++ init_regs_events par⟩ := by
  simp only [init_display_regs, write_reg_eq, Bus.emit, init_regs_events, List.append_assoc,
    CMD_SET_BIAS_7, CMD_SET_ADC_REVERSE, CMD_SET_COM_NORMAL, CMD_SET_DISP_START_LINE,
    CMD_SET_POWER_CONTROL, CMD_SET_RESISTOR_RATIO, CMD_DISPLAY_ON, CMD_SET_ALLPTS_NORMAL,
    CMD_SET_VOLUME, CMD_SET_VOLUME_LEVEL]
  rfl

/-- A loop whose body only appends the events of some sends. -/
theorem emit_loop (par : Par) (f : Nat → List (Nat × Nat)) (n : Nat) (bus : Bus) :
    forLoop n (fun k (b : Bus) => (⟨b.trace ++ sent_events par (f k)⟩ : Bus)) bus
      = ⟨bus.trace ++ sent_events par ((List.range n).flatMap f)⟩ := by
  induction n with
  | zero => simp [forLoop_zero, sent_events]
  | succ n ih =>
    rw [forLoop_succ, ih, List.range_succ, List.flatMap_append, sent_events_append]
    simp only [List.flatMap_cons, List.flatMap_nil, List.append_nil, List.append_assoc]

theorem init_display_clear_column_eq (tr : Transport) (par : Par) (column : Nat) (bus : Bus) :
    init_display_clear_column tr par (column : Int) bus
      = ⟨bus.trace ++ sent_events par (clear_column_sends column)⟩ := by
  have e1 : Int.lor (CMD_SET_COLUMN_LOWER : Int) (Int.land (column : Int) 0xf)
      = ((CMD_SET_COLUMN_LOWER ||| (column &&& 0xF) : Nat) : Int) := rfl
  have e2 : Int.lor (CMD_SET_COLUMN_UPPER : Int) (Int.land (Int.shiftRight (column : Int) 4) 0xf)
      = ((CMD_SET_COLUMN_UPPER ||| ((column >>> 4) &&& 0xF) : Nat) : Int) := rfl
  have b1 : CMD_SET_COLUMN_LOWER ||| (column &&& 0xF) < 2 ^ 8 :=
    Nat.or_lt_two_pow (by decide) (Nat.and_lt_two_pow _ (by decide))
  have b2 : CMD_SET_COLUMN_UPPER ||| ((column >>> 4) &&& 0xF) < 2 ^ 8 :=
    Nat.or_lt_two_pow (by decide) (Nat.and_lt_two_pow _ (by decide))
  unfold init_display_clear_column
  simp only [write_data_command_eq, e1, e2]
  rw [toU32_nat _ (by omega), toU32_nat _ (by omega),
    Nat.mod_eq_of_lt (show CMD_SET_COLUMN_LOWER ||| (column &&& 0xF) < 256 from b1),
    Nat.mod_eq_of_lt (show CMD_SET_COLUMN_UPPER ||| ((column >>> 4) &&& 0xF) < 256 from b2)]
  simp only [clear_column_sends, sent_events, List.flatMap_cons, List.flatMap_nil,
    List.append_nil, List.append_assoc]
  rfl

theorem init_display_clear_page_eq (tr : Transport) (par : Par) (fuel : Nat)
    (hfuel : 132 < fuel) (page : Nat) (hp : page < 8) (bus : Bus) :
    init_display_clear_page false tr par fuel (page : Int) bus
      = some ⟨bus.trace ++ sent_events par (clear_page_sends page)⟩ := by
  unfold init_display_clear_page
  rw [charLoop_count false _ _
    (fun k (b : Bus) => (⟨b.trace ++ sent_events par (clear_column_sends k)⟩ : Bus)) 132
    (fun k hk => by unfold toChar; simp; omega)
    (fun k hk => decide_eq_true (by unfold MAX_WIDTH; omega))
    (by decide)
    (fun k hk b => by rw [init_display_clear_column_eq]) fuel hfuel]
  rw [emit_loop, write_data_command_eq, page_byte page hp]
  simp only [clear_page_sends, sent_events, List.flatMap_cons, List.append_assoc]

/-- With an unsigned `char` and fuel for 132 columns, the clear phase runs to its
end and issues exactly `clear_sends`. -/
theorem init_display_clear_eq (tr : Transport) (par : Par) (fuel : Nat)
    (hfuel : 132 < fuel) (bus : Bus) :
    init_display_clear false tr par fuel bus
      = some ⟨bus.trace ++ sent_events par clear_sends⟩ := by
  unfold init_display_clear
  rw [charLoop_count false _ _
    (fun k (b : Bus) => (⟨b.trace ++ sent_events par (clear_page_sends k)⟩ : Bus)) 8
    (fun k hk => toChar_small false k (by omega))
    (fun k hk => decide_eq_true (by omega))
    (by decide)
    (fun k hk b => init_display_clear_page_eq tr par fuel hfuel k hk b) fuel (by omega)]
  rw [emit_loop]
  rfl

theorem init_display_unsigned (tr : Transport) (par : Par) (fuel : Nat)
    (hfuel : 132 < fuel) (bus : Bus) :
    init_display false tr par fuel bus
      = some (0, ⟨bus.trace ++ init_regs_events par ++ sent_events par clear_sends⟩) := by
  unfold init_display
  rw [init_display_clear_eq tr par fuel hfuel, init_display_regs_eq]

/-- With a signed `char` the column loop of the clear phase never stops. -/
theorem init_display_clear_page_signed (tr : Transport) (par : Par) (fuel : Nat)
    (page : Int) (bus : Bus) :
    init_display_clear_page true tr par fuel page bus = none := by
  unfold init_display_clear_page
  apply charLoop_signed_none
  · intro c _ h2
    exact decide_eq_true (by unfold MAX_WIDTH; omega)
  · decide
  · decide

theorem write_data_command_transport (tr tr2 : Transport) :
    write_data_command tr = write_data_command tr2 := by
  funext par dc val bus
  rw [write_data_command_eq, write_data_command_eq]

theorem write_vmem_transport (isSigned : Bool) (tr tr2 : Transport) (par : Par) (fuel : Nat)
    (bus : Bus) : write_vmem isSigned tr par fuel bus = write_vmem isSigned tr2 par fuel bus := by
  unfold write_vmem write_vmem_send write_vmem_send_page
  rw [write_data_command_transport tr tr2]

theorem init_display_transport (isSigned : Bool) (tr tr2 : Transport) (par : Par) (fuel : Nat)
    (bus : Bus) :
    init_display isSigned tr par fuel bus = init_display isSigned tr2 par fuel bus := by
  unfold init_display init_display_clear init_display_clear_page init_display_clear_column
    init_display_regs write_reg
  rw [write_data_command_transport tr tr2]

theorem write_sizes_append (l1 l2 : List Event) :
    write_sizes (l1 ++ l2) = write_sizes l1 ++ write_sizes l2 := by
  induction l1 with
  | nil => rfl
  | cons e l ih =>
    cases e <;> simp [write_sizes, ih]

theorem length_flatMap_const {α β : Type} (f : α → List β) (c : Nat)
    (hf : ∀ x, (f x).length = c) (l : List α) : (l.flatMap f).length = l.length * c := by
  induction l with
  | nil => simp
  | cons x l ih => simp [List.flatMap_cons, hf, ih, Nat.add_mul, Nat.add_comm]

theorem clear_sends_length : clear_sends.length = 8 * (1 + 132 * 3) := by
  unfold clear_sends
  rw [length_flatMap_const clear_page_sends (1 + 132 * 3), List.length_range]
  intro page
  unfold clear_page_sends
  rw [List.length_cons, length_flatMap_const clear_column_sends 3 (fun _ => rfl),
    List.length_range]

theorem write_sizes_byte_events (par : Par) (dc b : Nat) :
    write_sizes (byte_events par dc b) = [1] := by
  unfold byte_events
  by_cases h : par.gpio_dc = -1 <;> simp [h, write_sizes]

theorem write_sizes_mdelay (ms : Nat) : write_sizes [Event.mdelay ms] = [] := rfl

theorem init_regs_writes (par : Par) : (write_sizes (init_regs_events par)).length = 12 := by
  have h0 : write_sizes [Event.reset, Event.mdelay 550, Event.gpio_set_value par.gpio_dc 0]
      = [] := rfl
  simp only [init_regs_events, command, write_sizes_append, write_sizes_byte_events,
    write_sizes_mdelay, h0]
  rfl

/-! ## Bus errors (C6) -/

/-- C6 as worded fails: on a transport that fails every write with `-5`, starting
with the first write of the call, the repaint of the 2 x 64 strip still makes all
its 48 writes and returns 0, and `init_display` still makes all its
12 + 8 * (1 + 132 * 3) writes and returns 0. -/
theorem bus_error_not_propagated :
    dead_transport [Event.gpio_set_value 24 0] = -5 ∧
    (write_vmem false dead_transport strip_par 200 ⟨[]⟩).map
        (fun r => (r.1, (write_sizes r.2.2.trace).length)) = some (0, 48) ∧
    (init_display false dead_transport strip_par 200 ⟨[]⟩).map
        (fun r => (r.1, (write_sizes r.2.trace).length)) = some (0, 12 + 8 * (1 + 132 * 3)) := by
  refine ⟨by decide, ?_, ?_⟩
  · have h := write_vmem_send_eq false dead_transport strip_par (write_vmem_pack strip_par).mem
      200 (by decide) (write_vmem_pack_lt strip_par (fun _ => (by decide : (0 : Nat) < 256)))
      (by decide) ⟨[]⟩
    unfold write_vmem
    simp only [h, Option.map, List.nil_append, write_sizes_sent, List.length_replicate,
      repaint_length]
    rfl
  · rw [init_display_unsigned dead_transport strip_par 200 (by decide)]
    simp only [Option.map, List.nil_append, write_sizes_append, write_sizes_sent,
      List.length_append, List.length_replicate, clear_sends_length, init_regs_writes]

/-- C6 amended. Write failures are ignored, not propagated: `write_vmem` and
`init_display` behave on every transport exactly as on any other (same bus events,
same result, for either signedness of `char`). In particular, whatever the
transport reports, `write_vmem` (for `xres <= 128`) issues its complete 8-page
transmission and returns 0, and `init_display` with an unsigned plain `char` issues
its complete register and clear sequence and returns 0. Nothing is stated on what
`init_display` issues with a signed plain `char`. -/
theorem bus_error_ignored (isSigned : Bool) (tr : Transport) (par : Par) (fuel : Nat)
    (bus : Bus) (hW : par.xres ≤ 128) (htx : ∀ a, par.txbuf a < 256) (hfuel : 132 < fuel) :
    write_vmem isSigned tr par fuel bus
      = some (0, (write_vmem_pack par).mem,
          ⟨bus.trace ++ sent_events par (repaint par (write_vmem_pack par).mem)⟩) ∧
    init_display false tr par fuel bus
      = some (0, ⟨bus.trace ++ init_regs_events par ++ sent_events par clear_sends⟩) ∧
    (∀ tr2 : Transport,
      write_vmem isSigned tr2 par fuel bus = write_vmem isSigned tr par fuel bus ∧
      init_display isSigned tr2 par fuel bus = init_display isSigned tr par fuel bus) := by
  refine ⟨?_, init_display_unsigned tr par fuel hfuel bus, ?_⟩
  · unfold write_vmem
    simp only [write_vmem_send_eq isSigned tr par _ fuel hW (write_vmem_pack_lt par htx)
      (by omega)]
  · intro tr2
    exact ⟨write_vmem_transport isSigned tr2 tr par fuel bus,
      init_display_transport isSigned tr2 tr par fuel bus⟩

/-- Witness of C6 amended: the 2 x 64 strip on the transport that fails every write. -/
theorem bus_error_ignored_witness :
    write_vmem true dead_transport strip_par 200 ⟨[]⟩
      = some (0, (write_vmem_pack strip_par).mem,
          ⟨[] ++ sent_events strip_par (repaint strip_par (write_vmem_pack strip_par).mem)⟩) ∧
    init_display false dead_transport strip_par 200 ⟨[]⟩
      = some (0, ⟨[] ++ init_regs_events strip_par ++ sent_events strip_par clear_sends⟩) ∧
    (∀ tr2 : Transport,
      write_vmem true tr2 strip_par 200 ⟨[]⟩ = write_vmem true dead_transport strip_par 200 ⟨[]⟩ ∧
      init_display true tr2 strip_par 200 ⟨[]⟩
        = init_display true dead_transport strip_par 200 ⟨[]⟩) :=
  bus_error_ignored true dead_transport strip_par 200 ⟨[]⟩ (by decide)
    (fun _ => (by decide : (0 : Nat) < 256)) (by decide)

/-! ## Clear phase of `init_display` (C7) -/

theorem data_bytes_flatMap_const {α : Type} (f : α → List (Nat × Nat)) (d : List Nat)
    (hf : ∀ x, data_bytes (f x) = d) (l : List α) :
    data_bytes (l.flatMap f) = l.flatMap (fun _ => d) := by
  induction l with
  | nil => rfl
  | cons x l ih => rw [List.flatMap_cons, data_bytes_append, hf, ih, List.flatMap_cons]

theorem flatMap_const_replicate {α : Type} (l : List α) (n : Nat) (v : Nat) :
    l.flatMap (fun _ => List.replicate n v) = List.replicate (l.length * n) v := by
  induction l with
  | nil => simp
  | cons x l ih =>
    rw [List.flatMap_cons, ih, List.length_cons, Nat.add_mul, Nat.one_mul, Nat.add_comm,
      List.replicate_add]

/-- The data bytes of the clear phase are 8 * 132 = 1056 zero bytes. -/
theorem clear_sends_data : data_bytes clear_sends = List.replicate 1056 0 := by
  have hcol : ∀ c, data_bytes (clear_column_sends c) = List.replicate 1 0 := fun _ => rfl
  have hpage : ∀ p, data_bytes (clear_page_sends p) = List.replicate 132 0 := by
    intro p
    have h : clear_page_sends p
        = [(0, 0xB0 ||| p)] ++ (List.range 132).flatMap clear_column_sends := rfl
    rw [h, data_bytes_append, data_bytes_flatMap_const _ _ hcol, flatMap_const_replicate,
      List.length_range]
    rfl
  unfold clear_sends
  rw [data_bytes_flatMap_const _ _ hpage, flatMap_const_replicate, List.length_range]

/-- C7, on a build where plain `char` is signed: the counter `column` never reaches
132, so the clear phase of `init_display` does not terminate; the embedding finds
the function still running after any number of loop iterations. -/
theorem init_clear_signed_diverges (tr : Transport) (par : Par) (fuel : Nat) (bus : Bus) :
    init_display true tr par fuel bus = none := by
  unfold init_display init_display_clear
  cases fuel with
  | zero => rfl
  | succ f =>
    have hcond : decide ((0 : Int) < 8) = true := by decide
    simp only [charLoop, hcond, if_true, init_display_clear_page_signed]

/-! ## Register phase of `init_display` (C8, C9) -/

/-- C8. Init register sequence: the register phase of `init_display` appends exactly
reset, delay 550, select command channel, then the commands 0xA3, 0xA1, 0xC0, 0x40,
0x2C, delay 5, 0x2E, delay 5, 0x2F, delay 10, 0x26, 0xAF, 0xA4, delay 30, 0x81, 0x00,
each command being one channel select to 0 (when the line exists) and one
single-byte write; `init_display` is this phase followed by the clear phase, and
with an unsigned `char` and fuel for 132 columns its whole trace is this sequence
followed by the sends of the clear phase. -/
theorem init_register_sequence (isSigned : Bool) (tr : Transport) (par : Par) (fuel : Nat)
    (bus : Bus) :
    (init_display_regs tr par bus).trace = bus.trace ++
      ([Event.reset, Event.mdelay 550, Event.gpio_set_value par.gpio_dc 0]
        ++ command par 0xA3 ++ command par 0xA1 ++ command par 0xC0 ++ command par 0x40
        ++ command par 0x2C ++ [Event.mdelay 5]
        ++ command par 0x2E ++ [Event.mdelay 5]
        ++ command par 0x2F ++ [Event.mdelay 10]
        ++ command par 0x26 ++ command par 0xAF ++ command par 0xA4 ++ [Event.mdelay 30]
        ++ command par 0x81 ++ command par 0x00) ∧
    init_display isSigned tr par fuel bus
      = (init_display_clear isSigned tr par fuel (init_display_regs tr par bus)).map
          (fun b => ((0 : Int), b)) ∧
    (132 < fuel → init_display false tr par fuel bus
      = some (0, ⟨(init_display_regs tr par bus).trace ++ sent_events par clear_sends⟩)) := by
  refine ⟨?_, ?_, ?_⟩
  · rw [init_display_regs_eq]
    rfl
  · unfold init_display
    cases init_display_clear isSigned tr par fuel (init_display_regs tr par bus) <;> rfl
  · intro hfuel
    rw [init_display_unsigned tr par fuel hfuel, init_display_regs_eq]

/-- Witness of C8: the strip display, unsigned `char`, fuel 200, empty trace. -/
theorem init_register_sequence_witness :
    init_display false good_transport strip_par 200 ⟨[]⟩
      = some (0, ⟨(init_display_regs good_transport strip_par ⟨[]⟩).trace
          ++ sent_events strip_par clear_sends⟩) :=
  (init_register_sequence false good_transport strip_par 200 ⟨[]⟩).2.2 (by decide)

/-- C9. Power-stage monotonicity: the register phase issues exactly three
power-control writes, `0x28|0x4`, `0x28|0x6`, `0x28|0x7` in this order, each stage
set a strict superset of the one before, and the event right after each of them is
a delay of 5, 5 and 10 ms. -/
theorem power_stage_monotone (tr : Transport) (par : Par) :
    power_steps (init_display_regs tr par ⟨[]⟩).trace
      = [(0x28 ||| 0x4, some (Event.mdelay 5)), (0x28 ||| 0x6, some (Event.mdelay 5)),
         (0x28 ||| 0x7, some (Event.mdelay 10))] ∧
    List.Chain' (fun a b => stage_lt (a.1 &&& 0x7) (b.1 &&& 0x7))
      (power_steps (init_display_regs tr par ⟨[]⟩).trace) := by
  have h : power_steps (init_display_regs tr par ⟨[]⟩).trace
      = [(0x28 ||| 0x4, some (Event.mdelay 5)), (0x28 ||| 0x6, some (Event.mdelay 5)),
         (0x28 ||| 0x7, some (Event.mdelay 10))] := by
    rw [init_display_regs_eq]
    unfold init_regs_events command byte_events
    by_cases hdc : par.gpio_dc = -1
    · simp only [hdc, if_true, List.nil_append, List.append_assoc, List.cons_append]
      rfl
    · simp only [hdc, if_false, List.nil_append, List.append_assoc, List.cons_append]
      rfl
  rw [h]
  exact ⟨rfl, List.chain'_cons.mpr ⟨by decide,
    List.chain'_cons.mpr ⟨by decide, List.chain'_singleton _⟩⟩⟩

/-! ## Contrast (C10) -/

/-- C10. Contrast masking: `set_gamma` with `curves[0] = v` issues exactly the two
commands `0x81` and `v & 0x3F`, so the call with `v` and the call with `v & 0x3F`
leave the same bus trace. -/
theorem contrast_masking (tr : Transport) (par : Par) (curves : Nat → Nat) (bus : Bus) :
    (set_gamma tr par curves bus).2.2.trace
      = bus.trace ++ command par 0x81 ++ command par (curves 0 &&& 0x3F) ∧
    (set_gamma tr par (fun k => if k = 0 then curves 0 &&& 0x3F else curves k) bus).2.2
      = (set_gamma tr par curves bus).2.2 := by
  have hlt : ∀ v : Nat, (v &&& 0x3F) % 256 = v &&& 0x3F := by
    intro v
    apply Nat.mod_eq_of_lt
    have h : v &&& 0x3F < 2 ^ 8 := Nat.and_lt_two_pow _ (by decide)
    exact h
  have hvol : CMD_SET_VOLUME % 256 = 0x81 := by decide
  have hidem : ∀ v : Nat, v &&& 0x3F &&& 0x3F = v &&& 0x3F := by
    intro v
    rw [Nat.and_assoc]
    rfl
  constructor
  · simp only [set_gamma, write_reg_eq, if_true, hlt, hvol, List.append_assoc]
  · simp only [set_gamma, write_reg_eq, if_true, hlt, hvol, hidem]

/-- Witness of C10: `v = 0x40` writes the commands `0x81`, `0x00`. -/
theorem contrast_masking_witness :
    (set_gamma good_transport strip_par (fun _ => 0x40) ⟨[]⟩).2.2.trace
      = [Event.gpio_set_value 24 0, Event.write [0x81],
         Event.gpio_set_value 24 0, Event.write [0x00]] :=
  (contrast_masking good_transport strip_par (fun _ => 0x40) ⟨[]⟩).1.trans (by decide)

/-! ## Lemmas: `set_gamma` -/

theorem mask6_mod (v : Nat) : (v &&& 0x3F) % 256 = v &&& 0x3F := by
  apply Nat.mod_eq_of_lt
  have h : v &&& 0x3F < 2 ^ 8 := Nat.and_lt_two_pow _ (by decide)
  exact h

theorem mask6_small : ∀ v, v < 64 → v &&& 0x3F = v := by
  decide

theorem set_gamma_eq (tr : Transport) (par : Par) (curves : Nat → Nat) (bus : Bus) :
    set_gamma tr par curves bus
      = (0, (fun k => if k = 0 then curves 0 &&& 0x3F else curves k),
          ⟨bus.trace ++ command par 0x81 ++ command par (curves 0 &&& 0x3F)⟩) := by
  have hvol : CMD_SET_VOLUME % 256 = 0x81 := by decide
  simp only [set_gamma, write_reg_eq, if_true, mask6_mod, hvol, List.append_assoc]

set_option maxRecDepth 100000 in
theorem nibble_reconstruct : ∀ n, n < 256 →
    ((0x10 ||| ((n >>> 4) &&& 0xF)) &&& 0xF) * 16 + ((0x00 ||| (n &&& 0xF)) &&& 0xF) = n := by
  decide

/-! ## Contrast never rejects (C11) -/

/-- C11. Contrast never rejects: for every value of `curves[0]`, `set_gamma` returns
0, the commands it issues are `0x81` and the byte `curves[0] & 0x3F`, that byte lies
in 0..63, and it is the value itself when the value is already in 0..63. -/
theorem contrast_never_rejects (tr : Transport) (par : Par) (curves : Nat → Nat) (bus : Bus) :
    (set_gamma tr par curves bus).1 = 0 ∧
    (set_gamma tr par curves bus).2.2.trace
      = bus.trace ++ command par 0x81 ++ command par (curves 0 &&& 0x3F) ∧
    curves 0 &&& 0x3F ≤ 63 ∧
    (curves 0 ≤ 63 → curves 0 &&& 0x3F = curves 0) := by
  rw [set_gamma_eq]
  exact ⟨rfl, rfl, Nat.and_le_right, fun h => mask6_small _ (by omega)⟩

/-- Witness of C11: the value 37 is accepted and written unchanged. -/
theorem contrast_never_rejects_witness :
    (set_gamma good_transport strip_par (fun _ => 37) ⟨[]⟩).1 = 0 ∧
    (set_gamma good_transport strip_par (fun _ => 37) ⟨[]⟩).2.2.trace
      = [] ++ command strip_par 0x81 ++ command strip_par ((fun _ => 37) 0 &&& 0x3F) ∧
    (37 : Nat) &&& 0x3F = 37 :=
  have h := contrast_never_rejects good_transport strip_par (fun _ => 37) ⟨[]⟩
  ⟨h.1, h.2.1, h.2.2.2 (by decide)⟩

/-! ## Command sequencer (C13) -/

/-- C13 as worded fails: without a data/command line (`par->gpio.dc == -1`) a call
of `write_data_command` with `dc = 1` issues the byte write alone; no channel select
is set. -/
theorem channel_select_skipped :
    (write_data_command good_transport nodc_par 1 0xAB ⟨[]⟩).trace = [Event.write [0xAB]] := by
  decide

/-- C13 amended. Command sequencer: when the line exists (`par->gpio.dc != -1`) a
call `write_data_command(par, dc, val)` sets the channel select to `dc` and then
makes one transport write of the one byte `val mod 256`, and a second call on the
same channel sets the select again; when the line does not exist the call makes
the one-byte write alone. -/
theorem command_sequencer (tr : Transport) (par : Par) (dc val val2 : Nat) (bus : Bus) :
    (par.gpio_dc ≠ -1 →
      (write_data_command tr par dc val bus).trace
        = bus.trace ++ [Event.gpio_set_value par.gpio_dc dc, Event.write [val % 256]] ∧
      (write_data_command tr par dc val2 (write_data_command tr par dc val bus)).trace
        = bus.trace ++ [Event.gpio_set_value par.gpio_dc dc, Event.write [val % 256],
            Event.gpio_set_value par.gpio_dc dc, Event.write [val2 % 256]]) ∧
    (par.gpio_dc = -1 →
      (write_data_command tr par dc val bus).trace = bus.trace ++ [Event.write [val % 256]]) := by
  constructor
  · intro h
    simp [write_data_command_eq, byte_events, h]
  · intro h
    simp [write_data_command_eq, byte_events, h]

/-- Witness of C13 amended: two data bytes on the strip display (line 24), and one
on the display without a line. -/
theorem command_sequencer_witness :
    ((write_data_command good_transport strip_par 1 0x1AB ⟨[]⟩).trace
        = [] ++ [Event.gpio_set_value strip_par.gpio_dc 1, Event.write [0x1AB % 256]] ∧
      (write_data_command good_transport strip_par 1 0x0C
          (write_data_command good_transport strip_par 1 0x1AB ⟨[]⟩)).trace
        = [] ++ [Event.gpio_set_value strip_par.gpio_dc 1, Event.write [0x1AB % 256],
            Event.gpio_set_value strip_par.gpio_dc 1, Event.write [0x0C % 256]]) ∧
    (write_data_command good_transport nodc_par 1 0x1AB ⟨[]⟩).trace
      = [] ++ [Event.write [0x1AB % 256]] :=
  ⟨(command_sequencer good_transport strip_par 1 0x1AB 0x0C ⟨[]⟩).1 (by decide),
    (command_sequencer good_transport nodc_par 1 0x1AB 0x0C ⟨[]⟩).2 rfl⟩

/-! ## `set_gamma` stores the masked value (C19) -/

/-- C19. `set_gamma` stores `curves[0] & 0x3F` in `curves[0]` and changes no other
element; a second call on the array it leaves issues the same two commands again
and leaves the array as it is. -/
theorem set_gamma_idempotent (tr : Transport) (par : Par) (curves : Nat → Nat) (bus : Bus) :
    (set_gamma tr par curves bus).2.1 0 = curves 0 &&& 0x3F ∧
    (∀ k, k ≠ 0 → (set_gamma tr par curves bus).2.1 k = curves k) ∧
    (set_gamma tr par curves bus).2.2.trace
      = bus.trace ++ command par 0x81 ++ command par (curves 0 &&& 0x3F) ∧
    (set_gamma tr par (set_gamma tr par curves bus).2.1 (set_gamma tr par curves bus).2.2).2.1
      = (set_gamma tr par curves bus).2.1 ∧
    (set_gamma tr par (set_gamma tr par curves bus).2.1
        (set_gamma tr par curves bus).2.2).2.2.trace
      = (set_gamma tr par curves bus).2.2.trace
          ++ command par 0x81 ++ command par (curves 0 &&& 0x3F) := by
  have hidem : curves 0 &&& 0x3F &&& 0x3F = curves 0 &&& 0x3F := by
    rw [Nat.and_assoc]; rfl
  refine ⟨?_, ?_, ?_, ?_, ?_⟩
  · rw [set_gamma_eq]; rfl
  · intro k hk
    rw [set_gamma_eq]
    simp [hk]
  · rw [set_gamma_eq]
  · rw [set_gamma_eq, set_gamma_eq]
    simp only [if_true, hidem]
    funext k
    by_cases hk : k = 0 <;> simp [hk]
  · rw [set_gamma_eq, set_gamma_eq]
    simp only [if_true, hidem]

/-- Witness of C19: element 1 of an array holding 0x7F everywhere is left alone. -/
theorem set_gamma_idempotent_witness :
    (set_gamma good_transport strip_par (fun _ => 0x7F) ⟨[]⟩).2.1 1 = 0x7F :=
  (set_gamma_idempotent good_transport strip_par (fun _ => 0x7F) ⟨[]⟩).2.1 1 (by decide)


/-! ## Lemmas: bytes of the packed frame by linear index -/

/-- With `rotate = 0`, byte `k` of the frame is the forward packing of page `k / W`,
column `k % W`. -/
theorem pack_byte_at_0 (par : Par) (h0 : par.rotate = 0) (k : Nat)
    (hk : k < par.yres / 8 * par.xres) :
    (write_vmem_pack par).mem (k : Int)
      = packed_byte (pixel_bit par (k / par.xres) (k % par.xres)) id := by
  have hW : 0 < par.xres := by
    rcases Nat.eq_zero_or_pos par.xres with h | h
    · rw [h] at hk; omega
    · exact h
  have hy : k / par.xres < par.yres / 8 :=
    Nat.div_lt_of_lt_mul (by rw [Nat.mul_comm]; exact hk)
  have hx : k % par.xres < par.xres := Nat.mod_lt _ hW
  have h := (write_vmem_pack_0 par h0).1 _ _ hy hx
  rw [Nat.div_add_mod' k par.xres] at h
  exact h

/-- With `rotate = 180`, byte `k` of the frame is the backward packing of the cell
`n - 1 - k` of the walk, `n` the frame length. -/
theorem pack_byte_at_180 (par : Par) (h180 : par.rotate = 180) (h8 : 8 ∣ par.yres)
    (hfit : par.xres * par.yres < 2 ^ 31) (k : Nat) (hk : k < par.yres / 8 * par.xres) :
    (write_vmem_pack par).mem (k : Int)
      = packed_byte (pixel_bit par ((par.yres / 8 * par.xres - 1 - k) / par.xres)
          ((par.yres / 8 * par.xres - 1 - k) % par.xres)) (fun i => 7 - i) := by
  have hW : 0 < par.xres := by
    rcases Nat.eq_zero_or_pos par.xres with h | h
    · rw [h] at hk; omega
    · exact h
  obtain ⟨j, hj⟩ : ∃ j, j = par.yres / 8 * par.xres - 1 - k := ⟨_, rfl⟩
  have hjlt : j < par.yres / 8 * par.xres := by omega
  have hy : j / par.xres < par.yres / 8 :=
    Nat.div_lt_of_lt_mul (by rw [Nat.mul_comm]; exact hjlt)
  have hx : j % par.xres < par.xres := Nat.mod_lt _ hW
  have hf := (write_vmem_pack_180 par h180 h8 hfit).1 _ _ hy hx
  have hidx := flip_index (par.yres / 8) par.xres _ _ hy hx
  rw [Nat.div_add_mod' j par.xres] at hidx
  rw [hidx] at hf
  have hkj : par.yres / 8 * par.xres - 1 - j = k := by omega
  rw [hkj] at hf
  rw [← hj]
  exact hf

theorem packed_byte_congr (bit bit2 pos : Nat → Nat) (h : ∀ i, i < 8 → bit i = bit2 i) :
    packed_byte bit pos = packed_byte bit2 pos := by
  simp only [packed_byte, forLoop, range8, List.foldl, h 0 (by decide), h 1 (by decide),
    h 2 (by decide), h 3 (by decide), h 4 (by decide), h 5 (by decide), h 6 (by decide),
    h 7 (by decide)]

theorem packed_byte_ones_id : packed_byte (fun _ => 1) id = 0xFF := by decide

theorem packed_byte_ones_rev : packed_byte (fun _ => 1) (fun i => 7 - i) = 0xFF := by decide

/-- The bit fed for a pixel inside the frame is the test of that pixel. -/
theorem pixel_bit_inside (par : Par) (hfit : par.xres * par.yres < 2 ^ 31) (k i : Nat)
    (hk : k < par.yres / 8 * par.xres) (hi : i < 8) :
    ∃ q, q < par.xres * par.yres ∧
      pixel_bit par (k / par.xres) (k % par.xres) i = if par.vmem16 q ≠ 0 then 1 else 0 := by
  have hW : 0 < par.xres := by
    rcases Nat.eq_zero_or_pos par.xres with h | h
    · rw [h] at hk; omega
    · exact h
  have hy : k / par.xres < par.yres / 8 :=
    Nat.div_lt_of_lt_mul (by rw [Nat.mul_comm]; exact hk)
  have hx : k % par.xres < par.xres := Nat.mod_lt _ hW
  refine ⟨(k / par.xres * 8 + i) * par.xres + k % par.xres, ?_, ?_⟩
  · have h1 : k / par.xres * 8 + i + 1 ≤ par.yres := by omega
    have h2 : (k / par.xres * 8 + i + 1) * par.xres ≤ par.yres * par.xres :=
      Nat.mul_le_mul_right _ h1
    rw [Nat.add_mul, Nat.one_mul, Nat.mul_comm par.yres par.xres] at h2
    omega
  · unfold pixel_bit
    rw [pixel_index_fits par.xres par.yres _ i _ hfit hy hi hx]

/-! ## Uniform frames (C14, C15) -/

/-- C14. All-nonzero frame: when every pixel of a frame (height a multiple of 8) is
non-zero, whatever the values, every byte of the packed frame is `0xFF`, for
`rotate = 0` and for `rotate = 180`. -/
theorem all_nonzero_frame (par : Par) (h8 : 8 ∣ par.yres) (hfit : par.xres * par.yres < 2 ^ 31)
    (hpix : ∀ q, q < par.xres * par.yres → par.vmem16 q ≠ 0)
    (k : Nat) (hk : k < par.yres / 8 * par.xres) :
    (write_vmem_pack (with_rotate par 0)).mem (k : Int) = 0xFF ∧
    (write_vmem_pack (with_rotate par 180)).mem (k : Int) = 0xFF := by
  have hone : ∀ j i, j < par.yres / 8 * par.xres → i < 8 →
      pixel_bit par (j / par.xres) (j % par.xres) i = 1 := by
    intro j i hj hi
    obtain ⟨q, hq, hb⟩ := pixel_bit_inside par hfit j i hj hi
    rw [hb, if_pos (hpix q hq)]
  unfold with_rotate
  constructor
  · rw [pack_byte_at_0 { par with rotate := 0 } rfl k hk]
    change packed_byte (pixel_bit par _ _) id = _
    rw [packed_byte_congr _ (fun _ => 1) id (fun i hi => hone k i hk hi)]
    exact packed_byte_ones_id
  · have hf : (write_vmem_pack { par with rotate := 180 }).mem (k : Int)
        = packed_byte (pixel_bit par ((par.yres / 8 * par.xres - 1 - k) / par.xres)
            ((par.yres / 8 * par.xres - 1 - k) % par.xres)) (fun i => 7 - i) :=
      pack_byte_at_180 { par with rotate := 180 } rfl h8 hfit k hk
    rw [hf, packed_byte_congr _ (fun _ => 1) _ (fun i hi => hone _ i (by omega) hi)]
    exact packed_byte_ones_rev

/-- C15. All-zero frame: when every pixel of a frame (height a multiple of 8) is
zero, every byte of the packed frame is `0x00`, for `rotate = 0` and for
`rotate = 180`, whatever the transmit buffer held before. -/
theorem all_zero_frame (par : Par) (h8 : 8 ∣ par.yres) (hfit : par.xres * par.yres < 2 ^ 31)
    (hpix : ∀ q, q < par.xres * par.yres → par.vmem16 q = 0)
    (k : Nat) (hk : k < par.yres / 8 * par.xres) :
    (write_vmem_pack (with_rotate par 0)).mem (k : Int) = 0x00 ∧
    (write_vmem_pack (with_rotate par 180)).mem (k : Int) = 0x00 := by
  have hzero : ∀ j i, j < par.yres / 8 * par.xres → i < 8 →
      pixel_bit par (j / par.xres) (j % par.xres) i = 0 := by
    intro j i hj hi
    obtain ⟨q, hq, hb⟩ := pixel_bit_inside par hfit j i hj hi
    rw [hb, hpix q hq]
    rfl
  unfold with_rotate
  constructor
  · rw [pack_byte_at_0 { par with rotate := 0 } rfl k hk]
    change packed_byte (pixel_bit par _ _) id = _
    exact packed_byte_none _ _ (fun i hi => hzero k i hk hi)
  · have hf : (write_vmem_pack { par with rotate := 180 }).mem (k : Int)
        = packed_byte (pixel_bit par ((par.yres / 8 * par.xres - 1 - k) / par.xres)
            ((par.yres / 8 * par.xres - 1 - k) % par.xres)) (fun i => 7 - i) :=
      pack_byte_at_180 { par with rotate := 180 } rfl h8 hfit k hk
    rw [hf]
    exact packed_byte_none _ _ (fun i hi => hzero _ i (by omega) hi)

/-- Witness of C14 on the 2 x 16 frame with pixel values 1, 2, 3, ...: byte 3. -/
theorem all_nonzero_frame_witness :
    (write_vmem_pack (with_rotate bright_par 0)).mem ((3 : Nat) : Int) = 0xFF ∧
    (write_vmem_pack (with_rotate bright_par 180)).mem ((3 : Nat) : Int) = 0xFF :=
  all_nonzero_frame bright_par (by decide) (by decide) (fun q _ => Nat.succ_ne_zero q) 3
    (by decide)

/-- Witness of C15 on the 2 x 16 zero frame over a transmit buffer full of `0xA5`:
byte 0. -/
theorem all_zero_frame_witness :
    (write_vmem_pack (with_rotate dark_par 0)).mem ((0 : Nat) : Int) = 0x00 ∧
    (write_vmem_pack (with_rotate dark_par 180)).mem ((0 : Nat) : Int) = 0x00 :=
  all_zero_frame dark_par (by decide) (by decide) (fun _ _ => rfl) 0 (by decide)

/-! ## Lemmas: recorded accesses of the packing loops -/

theorem pixel_bit_index (par : Par) (y x i : Nat) :
    pixel_bit par y x i = if par.vmem16 (pixel_index par y x i) ≠ 0 then 1 else 0 := rfl

theorem write_vmem_cell_0_log_eq (par : Par) (y x : Nat) (t : Pack × PackLog) :
    write_vmem_cell_0_log par y x t
      = (write_vmem_cell_0 par y x t.1,
          ⟨t.2.reads ++ (List.range 8).map (pixel_index par y x),
            t.2.writes ++ List.replicate 9 t.1.buf⟩) := by
  simp only [write_vmem_cell_0_log, write_vmem_cell_0, forLoop, range8, List.foldl,
    List.map, List.replicate, List.append_assoc, List.cons_append, List.nil_append]

theorem write_vmem_cell_180_log_eq (par : Par) (y x : Nat) (t : Pack × PackLog) :
    write_vmem_cell_180_log par y x t
      = (write_vmem_cell_180 par y x t.1,
          ⟨t.2.reads ++ (List.range 8).map (pixel_index par y x),
            t.2.writes ++ List.replicate 9 t.1.buf⟩) := by
  simp only [write_vmem_cell_180_log, write_vmem_cell_180, forLoop, range8, List.foldl,
    List.map, List.replicate, List.append_assoc, List.cons_append, List.nil_append]

/-- The record of one row of cells: the reads of each cell in order, and nine
stores at each pointer position. -/
theorem sweep_row_log (d : Int) (hd : d ≠ 0) (v : Nat → Nat) (cell : Nat → Pack → Pack)
    (hcell : ∀ x s, cell x s = ⟨store s.mem s.buf (v x), s.buf + d⟩)
    (R : Nat → List Nat) (cellL : Nat → Pack × PackLog → Pack × PackLog)
    (hL : ∀ x t, cellL x t
      = (cell x t.1, ⟨t.2.reads ++ R x, t.2.writes ++ List.replicate 9 t.1.buf⟩))
    (W : Nat) (t : Pack × PackLog) :
    forLoop W cellL t
      = (forLoop W cell t.1,
          ⟨t.2.reads ++ (List.range W).flatMap R,
            t.2.writes ++ (List.range W).flatMap
              (fun x => List.replicate 9 (t.1.buf + d * (x : Int)))⟩) := by
  induction W with
  | zero => simp [forLoop_zero]
  | succ n ih =>
    rw [forLoop_succ, ih, hL, forLoop_succ, (sweep_row d hd v cell hcell n t.1).1]
    simp only [List.range_succ, List.flatMap_append, List.flatMap_cons, List.flatMap_nil,
      List.append_nil, List.append_assoc]

/-- The record of all pages of cells. -/
theorem sweep_pages_log (d : Int) (hd : d ≠ 0) (v : Nat → Nat → Nat)
    (cell : Nat → Nat → Pack → Pack)
    (hcell : ∀ y x s, cell y x s = ⟨store s.mem s.buf (v y x), s.buf + d⟩)
    (R : Nat → Nat → List Nat) (cellL : Nat → Nat → Pack × PackLog → Pack × PackLog)
    (hL : ∀ y x t, cellL y x t
      = (cell y x t.1, ⟨t.2.reads ++ R y x, t.2.writes ++ List.replicate 9 t.1.buf⟩))
    (W P : Nat) (t : Pack × PackLog) :
    forLoop P (fun y u => forLoop W (cellL y) u) t
      = (forLoop P (fun y s => forLoop W (cell y) s) t.1,
          ⟨t.2.reads ++ (List.range P).flatMap (fun y => (List.range W).flatMap (R y)),
            t.2.writes ++ (List.range P).flatMap (fun y => (List.range W).flatMap
              (fun x => List.replicate 9 (t.1.buf + d * ((y * W + x : Nat) : Int))))⟩) := by
  induction P with
  | zero => simp [forLoop_zero]
  | succ n ih =>
    rw [forLoop_succ, ih, sweep_row_log d hd (v n) (cell n) (hcell n) (R n) (cellL n) (hL n),
      forLoop_succ, (sweep_pages d hd v cell hcell W n t.1).1]
    simp only [List.range_succ, List.flatMap_append, List.flatMap_cons, List.flatMap_nil,
      List.append_nil, List.append_assoc]
    congr 2
    congr 2
    apply List.flatMap_congr
    intro x _
    congr 1
    push_cast
    ring

/-- A walk over pages and columns is a walk over the linear cell number. -/
theorem flatMap_range_mul {α : Type} (P W : Nat) (F : Nat → List α) :
    (List.range P).flatMap (fun y => (List.range W).flatMap (fun x => F (y * W + x)))
      = (List.range (P * W)).flatMap F := by
  induction P with
  | zero => simp
  | succ n ih =>
    rw [List.range_succ, List.flatMap_append, ih, Nat.add_mul, Nat.one_mul, List.range_add,
      List.flatMap_append, List.flatMap_map]
    simp only [List.flatMap_cons, List.flatMap_nil, List.append_nil]

/-- Recording the accesses does not change what the packing computes. -/
theorem write_vmem_pack_log_fst (par : Par) :
    (write_vmem_pack_log par).1 = write_vmem_pack par := by
  unfold write_vmem_pack_log write_vmem_pack
  by_cases h0 : par.rotate = 0
  · rw [if_pos h0, if_pos h0]
    rw [sweep_pages_log 1 (by decide) (fun y x => packed_byte (pixel_bit par y x) id)
      (write_vmem_cell_0 par) (fun y x s => by rw [write_vmem_cell_0_eq])
      (fun y x => (List.range 8).map (pixel_index par y x)) (write_vmem_cell_0_log par)
      (fun y x t => write_vmem_cell_0_log_eq par y x t)]
  · rw [if_neg h0, if_neg h0]
    by_cases h180 : par.rotate = 180
    · rw [if_pos h180, if_pos h180]
      rw [sweep_pages_log (-1) (by decide)
        (fun y x => packed_byte (pixel_bit par y x) (fun i => 7 - i))
        (write_vmem_cell_180 par) (fun y x s => by rw [write_vmem_cell_180_eq]; rfl)
        (fun y x => (List.range 8).map (pixel_index par y x)) (write_vmem_cell_180_log par)
        (fun y x t => write_vmem_cell_180_log_eq par y x t)]
    · rw [if_neg h180, if_neg h180]

/-- The record for `rotate = 0`: cell `k` of the walk is stored at byte `k`. -/
theorem write_vmem_pack_log_0 (par : Par) (h0 : par.rotate = 0) :
    (write_vmem_pack_log par).2.reads
      = (List.range (par.yres / 8)).flatMap (fun y => (List.range par.xres).flatMap
          (fun x => (List.range 8).map (pixel_index par y x))) ∧
    (write_vmem_pack_log par).2.writes
      = (List.range (par.yres / 8 * par.xres)).flatMap
          (fun k => List.replicate 9 (k : Int)) := by
  unfold write_vmem_pack_log LINES_PER_PAGE
  rw [if_pos h0]
  rw [sweep_pages_log 1 (by decide) (fun y x => packed_byte (pixel_bit par y x) id)
    (write_vmem_cell_0 par) (fun y x s => by rw [write_vmem_cell_0_eq])
    (fun y x => (List.range 8).map (pixel_index par y x)) (write_vmem_cell_0_log par)
    (fun y x t => write_vmem_cell_0_log_eq par y x t)]
  refine ⟨by simp only [List.nil_append], ?_⟩
  simp only [List.nil_append, zero_add, one_mul]
  exact flatMap_range_mul (par.yres / 8) par.xres (fun k => List.replicate 9 (k : Int))

/-- The record for `rotate = 180`: cell `k` of the walk is stored at byte `n - 1 - k`,
`n` the frame length. -/
theorem write_vmem_pack_log_180 (par : Par) (h180 : par.rotate = 180) (h8 : 8 ∣ par.yres)
    (hfit : par.xres * par.yres < 2 ^ 31) :
    (write_vmem_pack_log par).2.reads
      = (List.range (par.yres / 8)).flatMap (fun y => (List.range par.xres).flatMap
          (fun x => (List.range 8).map (pixel_index par y x))) ∧
    (write_vmem_pack_log par).2.writes
      = (List.range (par.yres / 8 * par.xres)).flatMap
          (fun k => List.replicate 9 (((par.yres / 8 * par.xres : Nat) : Int) - 1 - (k : Int))) := by
  unfold write_vmem_pack_log LINES_PER_PAGE
  rw [if_neg (by rw [h180]; decide), if_pos h180]
  rw [sweep_pages_log (-1) (by decide)
    (fun y x => packed_byte (pixel_bit par y x) (fun i => 7 - i))
    (write_vmem_cell_180 par) (fun y x s => by rw [write_vmem_cell_180_eq]; rfl)
    (fun y x => (List.range 8).map (pixel_index par y x)) (write_vmem_cell_180_log par)
    (fun y x t => write_vmem_cell_180_log_eq par y x t)]
  refine ⟨by simp only [List.nil_append], ?_⟩
  simp only [List.nil_append, zero_add]
  rw [flatMap_range_mul (par.yres / 8) par.xres
    (fun k => List.replicate 9
      ((((par.xres * par.yres % 2 ^ 32 / 8 + 2 ^ 32 - 1) % 2 ^ 32 : Nat) : Int) + -1 * (k : Int)))]
  apply List.flatMap_congr
  intro k hk
  have hklt : k < par.yres / 8 * par.xres := List.mem_range.mp hk
  have hdiv : par.xres * par.yres / 8 = par.yres / 8 * par.xres := by
    rw [Nat.mul_div_assoc _ h8, Nat.mul_comm]
  have hmod : par.xres * par.yres % 2 ^ 32 = par.xres * par.yres :=
    Nat.mod_eq_of_lt (by omega)
  have hstart : (par.xres * par.yres % 2 ^ 32 / 8 + 2 ^ 32 - 1) % 2 ^ 32
      = par.yres / 8 * par.xres - 1 := by
    rw [hmod, hdiv]
    omega
  rw [hstart]
  have he : (((par.yres / 8 * par.xres - 1 : Nat) : Int) + -1 * (k : Int))
      = ((par.yres / 8 * par.xres : Nat) : Int) - 1 - (k : Int) := by
    omega
  rw [he]

/-- The record for any other `rotate`: nothing is read, nothing is stored. -/
theorem write_vmem_pack_log_other (par : Par) (h0 : par.rotate ≠ 0) (h180 : par.rotate ≠ 180) :
    write_vmem_pack_log par = (⟨par.txbuf, 0⟩, ⟨[], []⟩) := by
  unfold write_vmem_pack_log
  rw [if_neg h0, if_neg h180]

theorem pixel_index_lt (par : Par) (y x i : Nat) (hy : y < par.yres / 8) (hx : x < par.xres)
    (hi : i < 8) : pixel_index par y x i < par.xres * par.yres := by
  unfold pixel_index
  have h1 : y * 8 + i + 1 ≤ par.yres := by omega
  have h2 : (y * 8 + i + 1) * par.xres ≤ par.yres * par.xres := Nat.mul_le_mul_right _ h1
  rw [Nat.add_mul, Nat.one_mul, Nat.mul_comm par.yres par.xres] at h2
  have h3 : ((y * 8 + i) * par.xres + x) % 2 ^ 32 ≤ (y * 8 + i) * par.xres + x :=
    Nat.mod_le _ _
  omega

theorem head_runs (m : Nat) (g : Nat → Int) :
    ((List.range (m + 1)).flatMap (fun k => List.replicate 9 (g k))).head? = some (g 0) := by
  rw [List.range_succ_eq_map, List.flatMap_cons]
  rfl

theorem last_runs (m : Nat) (g : Nat → Int) :
    ((List.range (m + 1)).flatMap (fun k => List.replicate 9 (g k))).getLast? = some (g m) := by
  rw [List.range_succ, List.flatMap_append, List.getLast?_append]
  rfl

theorem mem_runs (n : Nat) (g : Nat → Int) (a : Int)
    (h : a ∈ (List.range n).flatMap (fun k => List.replicate 9 (g k))) :
    ∃ k, k < n ∧ a = g k := by
  rw [List.mem_flatMap] at h
  obtain ⟨k, hk, ha⟩ := h
  exact ⟨k, List.mem_range.mp hk, (List.mem_replicate.mp ha).2⟩

/-! ## Packed frame length and index safety (C12, C16) -/

/-- C12. Packed frame length: for `rotate = 0` and `rotate = 180` (height a multiple
of 8) the stores of the transcode step go to exactly `W * (H/8)` bytes of the
transmit buffer: the recorded stores are runs of nine (one `*buf = 0x00`, eight
`*buf |= ..`) at the offsets of a list `cells` that has `W * (H/8)` entries, no
repetition, and contains exactly the offsets `0 .. W*(H/8) - 1`; the recording
leaves the result of the packing unchanged. -/
theorem packed_frame_length (par : Par) (hrot : par.rotate = 0 ∨ par.rotate = 180)
    (h8 : 8 ∣ par.yres) (hfit : par.xres * par.yres < 2 ^ 31) :
    (write_vmem_pack_log par).1 = write_vmem_pack par ∧
    ∃ cells : List Int,
      (write_vmem_pack_log par).2.writes = cells.flatMap (fun a => List.replicate 9 a) ∧
      cells.length = par.xres * (par.yres / 8) ∧ cells.Nodup ∧
      ∀ a : Int, a ∈ cells ↔ (0 ≤ a ∧ a < ((par.xres * (par.yres / 8) : Nat) : Int)) := by
  refine ⟨write_vmem_pack_log_fst par, ?_⟩
  rw [Nat.mul_comm par.xres (par.yres / 8)]
  rcases hrot with h0 | h180
  · refine ⟨(List.range (par.yres / 8 * par.xres)).map (fun (k : Nat) => (k : Int)),
      ?_, ?_, ?_, ?_⟩
    · rw [(write_vmem_pack_log_0 par h0).2, List.flatMap_map]
    · simp
    · exact (List.nodup_range _).map Nat.cast_injective
    · intro a
      simp only [List.mem_map, List.mem_range]
      constructor
      · rintro ⟨k, hk, rfl⟩
        omega
      · intro h
        exact ⟨a.toNat, by omega, by omega⟩
  · refine ⟨(List.range (par.yres / 8 * par.xres)).map
      (fun (k : Nat) => ((par.yres / 8 * par.xres : Nat) : Int) - 1 - (k : Int)), ?_, ?_, ?_, ?_⟩
    · rw [(write_vmem_pack_log_180 par h180 h8 hfit).2, List.flatMap_map]
    · simp
    · apply (List.nodup_range _).map
      intro j k h
      simp only at h
      omega
    · intro a
      simp only [List.mem_map, List.mem_range]
      constructor
      · rintro ⟨k, hk, rfl⟩
        omega
      · intro h
        exact ⟨(((par.yres / 8 * par.xres : Nat) : Int) - 1 - a).toNat, by omega, by omega⟩

/-- Witness of C12 on the 2 x 16 demo frame, `rotate = 0`. -/
theorem packed_frame_length_witness :
    (write_vmem_pack_log demo_par).1 = write_vmem_pack demo_par ∧
    ∃ cells : List Int,
      (write_vmem_pack_log demo_par).2.writes = cells.flatMap (fun a => List.replicate 9 a) ∧
      cells.length = demo_par.xres * (demo_par.yres / 8) ∧ cells.Nodup ∧
      ∀ a : Int, a ∈ cells ↔
        (0 ≤ a ∧ a < ((demo_par.xres * (demo_par.yres / 8) : Nat) : Int)) :=
  packed_frame_length demo_par (Or.inl rfl) (by decide) (by decide)

/-- C16. Index safety of the transcoder: for `W >= 1`, `H >= 8` a multiple of 8 and
either orientation, every recorded pixel read index is below `W * H` and every
recorded store offset lies in `0 .. W*(H/8) - 1`; for `rotate = 180` the first store
is at offset `(W*H)/8 - 1 = W*(H/8) - 1` and the last one at offset 0. -/
theorem index_safety (par : Par) (hrot : par.rotate = 0 ∨ par.rotate = 180)
    (hW : 1 ≤ par.xres) (hH : 8 ≤ par.yres) (h8 : 8 ∣ par.yres)
    (hfit : par.xres * par.yres < 2 ^ 31) :
    (∀ r ∈ (write_vmem_pack_log par).2.reads, r < par.xres * par.yres) ∧
    (∀ a ∈ (write_vmem_pack_log par).2.writes,
      0 ≤ a ∧ a < ((par.xres * (par.yres / 8) : Nat) : Int)) ∧
    (par.rotate = 180 →
      (write_vmem_pack_log par).2.writes.head?
        = some ((par.xres * par.yres / 8 - 1 : Nat) : Int) ∧
      par.xres * par.yres / 8 - 1 = par.xres * (par.yres / 8) - 1 ∧
      (write_vmem_pack_log par).2.writes.getLast? = some 0) := by
  have hreads : (write_vmem_pack_log par).2.reads
      = (List.range (par.yres / 8)).flatMap (fun y => (List.range par.xres).flatMap
          (fun x => (List.range 8).map (pixel_index par y x))) := by
    rcases hrot with h0 | h180
    · exact (write_vmem_pack_log_0 par h0).1
    · exact (write_vmem_pack_log_180 par h180 h8 hfit).1
  have hdiv : par.xres * par.yres / 8 = par.xres * (par.yres / 8) := Nat.mul_div_assoc _ h8
  have hpos : 0 < par.yres / 8 * par.xres := Nat.mul_pos (by omega) (by omega)
  obtain ⟨m, hm⟩ : ∃ m, par.yres / 8 * par.xres = m + 1 := ⟨_, (Nat.succ_pred_eq_of_pos hpos).symm⟩
  refine ⟨?_, ?_, ?_⟩
  · intro r hr
    rw [hreads] at hr
    simp only [List.mem_flatMap, List.mem_map, List.mem_range] at hr
    obtain ⟨y, hy, x, hx, i, hi, rfl⟩ := hr
    exact pixel_index_lt par y x i hy hx hi
  · intro a ha
    rw [Nat.mul_comm par.xres (par.yres / 8)]
    rcases hrot with h0 | h180
    · rw [(write_vmem_pack_log_0 par h0).2] at ha
      obtain ⟨k, hk, rfl⟩ := mem_runs _ _ a ha
      omega
    · rw [(write_vmem_pack_log_180 par h180 h8 hfit).2] at ha
      obtain ⟨k, hk, rfl⟩ := mem_runs _ _ a ha
      omega
  · intro h180
    rw [(write_vmem_pack_log_180 par h180 h8 hfit).2, hm, head_runs, last_runs, hdiv,
      Nat.mul_comm par.xres (par.yres / 8), hm]
    refine ⟨?_, rfl, ?_⟩
    · congr 1
      omega
    · congr 1
      omega

/-- Witness of C16 on the 2 x 16 demo frame flipped. -/
theorem index_safety_witness :
    (∀ r ∈ (write_vmem_pack_log (with_rotate demo_par 180)).2.reads, r < 2 * 16) ∧
    (write_vmem_pack_log (with_rotate demo_par 180)).2.writes.head? = some 3 ∧
    (write_vmem_pack_log (with_rotate demo_par 180)).2.writes.getLast? = some 0 :=
  have h := index_safety (with_rotate demo_par 180) (Or.inr rfl) (by decide) (by decide)
    (by decide) (by decide)
  ⟨h.1, (h.2.2 rfl).1, (h.2.2 rfl).2.2⟩

/-! ## Column address (C17) -/

/-- C17. Column-address nibble split: for every column `n < 132` the clear loop
issues the commands `lo = 0x00 | (n & 0xF)` and `hi = 0x10 | ((n >> 4) & 0xF)` (then
a zero data byte), and for `xres <= 128` every page of the repaint issues, after the
page address, the same two commands for `n = 132 - xres`; in both cases
`(hi & 0xF) * 16 + (lo & 0xF) = n`, and for `xres = 128` the two commands are `0x04`
and `0x10`. -/
theorem column_nibble_split (isSigned : Bool) (tr : Transport) (par : Par) (mem : Int → Nat)
    (fuel : Nat) (bus : Bus) (s : Bus × Nat) :
    (∀ n : Nat, n < 132 →
      (init_display_clear_column tr par (n : Int) bus).trace
        = bus.trace ++ command par (0x00 ||| (n &&& 0xF))
            ++ command par (0x10 ||| ((n >>> 4) &&& 0xF)) ++ data par 0x00 ∧
      ((0x10 ||| ((n >>> 4) &&& 0xF)) &&& 0xF) * 16 + ((0x00 ||| (n &&& 0xF)) &&& 0xF) = n) ∧
    (par.xres ≤ 128 → (∀ a, mem a < 256) → 128 < fuel → ∀ page : Nat, page < 8 →
      write_vmem_send_page isSigned tr par mem fuel (page : Int) s
        = some (⟨s.1.trace ++ sent_events par
            ([(0, 0xB0 ||| page), (0, 0x00 ||| ((132 - par.xres) &&& 0xF)),
              (0, 0x10 ||| (((132 - par.xres) >>> 4) &&& 0xF)), (0, 0xE0)]
             ++ (List.range par.xres).map (fun j => (1, mem ((s.2 + j : Nat) : Int))))⟩,
          s.2 + par.xres) ∧
      ((0x10 ||| (((132 - par.xres) >>> 4) &&& 0xF)) &&& 0xF) * 16
        + ((0x00 ||| ((132 - par.xres) &&& 0xF)) &&& 0xF) = 132 - par.xres) ∧
    (par.xres = 128 →
      0x00 ||| ((132 - par.xres) &&& 0xF) = 0x04 ∧
      0x10 ||| (((132 - par.xres) >>> 4) &&& 0xF) = 0x10) := by
  refine ⟨?_, ?_, ?_⟩
  · intro n hn
    refine ⟨?_, nibble_reconstruct n (by omega)⟩
    rw [init_display_clear_column_eq]
    simp only [clear_column_sends, sent_events, List.flatMap_cons, List.flatMap_nil,
      List.append_nil, List.append_assoc, command, data]
  · intro hW hmem hfuel page hp
    exact ⟨write_vmem_send_page_eq isSigned tr par mem fuel hW hmem hfuel page hp s,
      nibble_reconstruct _ (by omega)⟩
  · intro h
    rw [h]
    exact ⟨by decide, by decide⟩

/-- Witness of C17: column 131 of the clear loop, and the repaint of a 128-wide
display. -/
theorem column_nibble_split_witness :
    (init_display_clear_column good_transport corner_par ((131 : Nat) : Int) ⟨[]⟩).trace
      = [] ++ command corner_par (0x00 ||| (131 &&& 0xF))
          ++ command corner_par (0x10 ||| ((131 >>> 4) &&& 0xF)) ++ data corner_par 0x00 ∧
    ((0x10 ||| ((131 >>> 4) &&& 0xF)) &&& 0xF) * 16 + ((0x00 ||| (131 &&& 0xF)) &&& 0xF) = 131 ∧
    ((0x10 ||| (((132 - corner_par.xres) >>> 4) &&& 0xF)) &&& 0xF) * 16
        + ((0x00 ||| ((132 - corner_par.xres) &&& 0xF)) &&& 0xF) = 132 - corner_par.xres ∧
    0x00 ||| ((132 - corner_par.xres) &&& 0xF) = 0x04 ∧
    0x10 ||| (((132 - corner_par.xres) >>> 4) &&& 0xF) = 0x10 :=
  have h := column_nibble_split false good_transport corner_par (fun _ => 0) 200 ⟨[]⟩ (⟨[]⟩, 0)
  ⟨(h.1 131 (by decide)).1, (h.1 131 (by decide)).2,
    (h.2.1 (by decide) (fun _ => (by decide : (0 : Nat) < 256)) (by decide) 0 (by decide)).2,
    h.2.2 rfl⟩

/-! ## Unsupported orientation (C18) -/

/-- C18. Unsupported orientation: for every `rotate` other than 0 and 180 the
transcode step reads no pixel and stores nothing, so the transmit buffer keeps every
byte, and `write_vmem` (for `xres <= 128`) still issues the full 8-page transmission
of the buffer as it was and returns 0. -/
theorem unsupported_rotate (isSigned : Bool) (tr : Transport) (par : Par) (fuel : Nat)
    (bus : Bus) (h0 : par.rotate ≠ 0) (h180 : par.rotate ≠ 180) (hW : par.xres ≤ 128)
    (htx : ∀ a, par.txbuf a < 256) (hfuel : 128 < fuel) :
    (write_vmem_pack_log par).2.reads = [] ∧
    (write_vmem_pack_log par).2.writes = [] ∧
    (write_vmem_pack par).mem = par.txbuf ∧
    write_vmem isSigned tr par fuel bus
      = some (0, par.txbuf, ⟨bus.trace ++ sent_events par (repaint par par.txbuf)⟩) := by
  have hpack : write_vmem_pack par = ⟨par.txbuf, 0⟩ := by
    unfold write_vmem_pack
    rw [if_neg h0, if_neg h180]
  refine ⟨?_, ?_, ?_, ?_⟩
  · rw [write_vmem_pack_log_other par h0 h180]
  · rw [write_vmem_pack_log_other par h0 h180]
  · rw [hpack]
  · unfold write_vmem
    simp only [hpack, write_vmem_send_eq isSigned tr par par.txbuf fuel hW htx hfuel]

/-- Witness of C18: the 2 x 64 strip with `rotate = 90`. -/
theorem unsupported_rotate_witness :
    (write_vmem_pack_log (with_rotate strip_par 90)).2.reads = [] ∧
    (write_vmem_pack_log (with_rotate strip_par 90)).2.writes = [] ∧
    (write_vmem_pack (with_rotate strip_par 90)).mem = (with_rotate strip_par 90).txbuf ∧
    write_vmem true good_transport (with_rotate strip_par 90) 200 ⟨[]⟩
      = some (0, (with_rotate strip_par 90).txbuf,
          ⟨[] ++ sent_events (with_rotate strip_par 90)
            (repaint (with_rotate strip_par 90) (with_rotate strip_par 90).txbuf)⟩) :=
  unsupported_rotate true good_transport (with_rotate strip_par 90) 200 ⟨[]⟩ (by decide)
    (by decide) (by decide) (fun _ => (by decide : (0 : Nat) < 256)) (by decide)

end FbSt7565
